import Mathlib

/-! # Verification of the registry `_utils` helpers

A shallow embedding of the Python modules
`components/registry/scripts/_utils/{github_token,http,io}.py` together with
proofs of the behavioural properties claimed in the specification.

Modelling conventions:
* Python floats are modelled as rationals (`ℚ`); `random.random() * 0.25`
  jitter and `time.time()` are supplied as explicit per-attempt parameters.
* The process environment `os.environ` is a function `String → Option String`.
* The network (the `requests` session) is a function from the attempt number
  to the outcome of that attempt: either a raised `requests.RequestException`
  or a response carrying status, headers, the JSON-parse outcome of the body,
  and the optional `resp.text`.
* Python's `None` and JSON `null` are the same value, so the `data` field of a
  fetch result is a JSON value whose `null` constructor plays Python's `None`.
* The filesystem is a map from path strings to optional file contents, and
  the failure points of `dump_json_atomic` (write, rename, cleanup) are an
  explicit oracle.
-/

set_option maxHeartbeats 1000000

namespace Gallery

/-! ## JSON values

Python JSON values as produced by `json.load`: null, booleans, numbers,
strings, arrays and objects.  Numbers are modelled as integers only (floats
are outside the model).  Arrays and objects are mutually inductive lists so
that structural recursion over them is direct. -/

mutual

inductive J where
  | null
  | bool (b : Bool)
  | num (n : Int)
  | str (s : String)
  | arr (elems : JArr)
  | obj (members : JObj)

inductive JArr where
  | nil
  | cons (head : J) (tail : JArr)

inductive JObj where
  | nil
  | cons (key : String) (value : J) (tail : JObj)

end

deriving instance DecidableEq for J, JArr, JObj

/-! ## `_utils/http.py` -/

/-- Python's `str.strip()` whitespace (the ASCII part). -/
def isPySpace (c : Char) : Bool :=
  c = ' ' || c = '\t' || c = '\n' || c = '\r' || c = '\x0b' || c = '\x0c'

/-- Python `str.strip()`. -/
def pyStrip (s : String) : String :=
  ⟨((s.data.dropWhile isPySpace).reverse.dropWhile isPySpace).reverse⟩

/-- Python `str.lower()` (ASCII case folding suffices for header names). -/
def pyLower (s : String) : String := ⟨s.data.map Char.toLower⟩

/-- Value of a non-empty digit string. -/
def digitsToNat (l : List Char) : Nat :=
  l.foldl (fun a c => 10 * a + (c.toNat - 48)) 0

def allDecDigits (l : List Char) : Bool := !l.isEmpty && l.all Char.isDigit

/-- Python `int(s)` on an already-stripped string: an optional sign followed
by decimal digits.  (Python additionally accepts underscore digit grouping,
which no header value uses and which is not modelled.) -/
def pyIntOfString (s : String) : Option Int :=
  match s.data with
  | '-' :: rest => if allDecDigits rest then some (-(digitsToNat rest : Int)) else none
  | '+' :: rest => if allDecDigits rest then some ((digitsToNat rest : Int)) else none
  | l => if allDecDigits l then some ((digitsToNat l : Int)) else none

def digitChar (n : Nat) : Char := Char.ofNat (48 + n)

/-- Decimal digits of `n`, most significant first, prepended to `acc`; the
fuel is an upper bound on the digit count. -/
def natDigitsAux : Nat → Nat → List Char → List Char
  | 0, _, acc => acc
  | fuel + 1, n, acc =>
    if n < 10 then digitChar n :: acc
    else natDigitsAux fuel (n / 10) (digitChar (n % 10) :: acc)

def natChars (n : Nat) : List Char := natDigitsAux (n + 1) n []

/-- Python `str(int)`. -/
def intChars (n : Int) : List Char :=
  if n < 0 then '-' :: natChars (-n).toNat else natChars n.toNat

def intStr (n : Int) : String := ⟨intChars n⟩

/-- `_maybe_int` from `http.py`. -/
def maybe_int (s : Option String) : Option Int :=
  match s with
  | none => none
  | some s => if (pyStrip s) = "" then none else pyIntOfString (pyStrip s)

/-- Response headers: a name/value association list.  `none` models Python's
`None`; the code never builds `some []` because `dict(resp.headers) if
resp.headers else None` maps an empty header dict to `None`. -/
abbrev Headers := Option (List (String × String))

/-- Truthiness of the optional header dict (`if not headers`). -/
def headersFalsy : Headers → Bool
  | none => true
  | some l => l.isEmpty

/-- `_get_header` from `http.py`: case-insensitive lookup of the first
matching header name. -/
def get_header (headers : Headers) (name : String) : Option String :=
  match headers with
  | none => none
  | some l => lookupHeader l (pyLower (pyStrip name))
where
  lookupHeader : List (String × String) → String → Option String
    | [], _ => none
    | (k, v) :: t, target =>
      if pyLower (pyStrip k) = target then some v else lookupHeader t target

/-- `_retry_after_seconds` from `http.py`. -/
def retry_after_seconds (headers : Headers) : Option Int :=
  if headersFalsy headers then none
  else maybe_int (get_header headers "Retry-After")

/-- `remaining is not None and remaining > 0`. -/
def remainingPositive : Option Int → Bool
  | some r => decide (0 < r)
  | none => false

/-- `_rate_limit_reset_wait_s` from `http.py`.  `now` is the value of
`time.time()`; `int(reset_epoch - time.time())` truncates toward zero, which
below `max 0` agrees with the floor. -/
def rate_limit_reset_wait_s (headers : Headers) (now : ℚ) : Option Int :=
  let reset_epoch := maybe_int (get_header headers "X-RateLimit-Reset")
  let remaining := maybe_int (get_header headers "X-RateLimit-Remaining")
  match reset_epoch with
  | none => none
  | some re =>
    if remainingPositive remaining then none
    else some (max 0 ⌊(re : ℚ) - now⌋)

/-- `RetryConfig` from `http.py`. -/
structure RetryConfig where
  max_attempts : Int := 6
  backoff_base_s : ℚ := 1/2
  backoff_cap_s : ℚ := 60
  retry_statuses : List Int := [403, 429, 500, 502, 503, 504]

/-- `FetchJsonResult` from `http.py`.  `data` is `Any | None` in Python, so a
JSON value with `J.null` playing `None`. -/
structure FetchJsonResult where
  ok : Bool
  status : Option Int
  data : J
  headers : Headers
  error : Option String
  attempts : Int
  last_retry_after_s : Option Int

/-- One attempt of `session.get`: either a raised `requests.RequestException`
(carrying its formatted `f"{type(e).__name__}: {e}"` text) or a response with
status code, header dict, the outcome of `resp.json()` and the optional
`resp.text` (`none` when reading the body raises). -/
inductive AttemptOutcome where
  | exc (msg : String)
  | resp (status : Int) (headers : List (String × String)) (body : Except String J)
      (text : Option String)

/-- `dict(resp.headers) if resp.headers else None`. -/
def optHdrs (headers : List (String × String)) : Headers :=
  if headers.isEmpty then none else some headers

/-- The wait computed in the retryable-status branch of `fetch_json`:
exponential backoff capped at `backoff_cap_s`, raised to at least an integer
`Retry-After` and to at least the rate-limit reset wait, plus jitter. -/
def retry_wait (cfg : RetryConfig) (hdrs : Headers) (now jitterv : ℚ) (attempt : Nat) : ℚ :=
  let ra := retry_after_seconds hdrs
  let rl_wait := rate_limit_reset_wait_s hdrs now
  let w0 := min cfg.backoff_cap_s ((2 ^ attempt : ℚ) * cfg.backoff_base_s)
  let w1 := match ra with | some r => max w0 (r : ℚ) | none => w0
  let w2 := match rl_wait with | some q => max w1 (q : ℚ) | none => w1
  w2 + jitterv

/-- The wait computed in the network-exception branch of `fetch_json`. -/
def exc_wait (cfg : RetryConfig) (jitterv : ℚ) (attempt : Nat) : ℚ :=
  min cfg.backoff_cap_s ((2 ^ attempt : ℚ) * cfg.backoff_base_s) + jitterv

/-- The `for attempt in range(1, max(1, retry.max_attempts) + 1)` loop of
`fetch_json`.  `attempt` is the Python loop variable, `remaining` the number
of loop iterations left (including the current one), `last_ra` the local
`last_retry_after` variable.  Returns the result of the `return` statement
that ended the loop (`none` when the loop ran out of iterations), the final
value of `last_retry_after`, and the list of waits passed to `time.sleep`. -/
def fetchLoop (cfg : RetryConfig) (outcomes : Nat → AttemptOutcome) (now jitter : Nat → ℚ) :
    Option Int → Nat → Nat → Option FetchJsonResult × Option Int × List ℚ
  | last_ra, _, 0 => (none, last_ra, [])
  | last_ra, attempt, remaining + 1 =>
    match outcomes attempt with
    | .exc msg =>
      if cfg.max_attempts ≤ (attempt : Int) then
        (some ⟨false, none, .null, none, some msg, (attempt : Int), last_ra⟩, last_ra, [])
      else
        let w := exc_wait cfg (jitter attempt) attempt
        let r := fetchLoop cfg outcomes now jitter last_ra (attempt + 1) remaining
        (r.1, r.2.1, w :: r.2.2)
    | .resp status headers body text =>
      let hdrs := optHdrs headers
      if 200 ≤ status ∧ status < 300 then
        match body with
        | .ok d =>
          (some ⟨true, some status, d, hdrs, none, (attempt : Int), last_ra⟩, last_ra, [])
        | .error e =>
          (some ⟨false, some status, .null, hdrs, some ("Invalid JSON payload: " ++ e),
            (attempt : Int), last_ra⟩, last_ra, [])
      else if status ∈ cfg.retry_statuses ∧ (attempt : Int) < cfg.max_attempts then
        let ra := retry_after_seconds hdrs
        let last_ra' := match ra with | some v => some v | none => last_ra
        let w := retry_wait cfg hdrs (now attempt) (jitter attempt) attempt
        let r := fetchLoop cfg outcomes now jitter last_ra' (attempt + 1) remaining
        (r.1, r.2.1, w :: r.2.2)
      else
        let msg := "HTTP " ++ intStr status ++
          (match text with
           | some b => if b ≠ "" then ": " ++ ⟨b.data.take 5000⟩ else ""
           | none => "")
        let ra := retry_after_seconds hdrs
        (some ⟨false, some status, .null, hdrs,
          some (msg ++ (match ra with
                        | some v => " (Retry-After=" ++ intStr v ++ "s)"
                        | none => "")),
          (attempt : Int),
          (match ra with | some v => some v | none => last_ra)⟩, last_ra, [])

/-- `fetch_json` from `http.py`: run the loop from attempt 1; if the loop
ends without returning (marked `# Unreachable.` in the source) produce the
`"Unknown error."` fallback result.  Returns the result together with the
waits slept. -/
def fetch_json (cfg : RetryConfig) (outcomes : Nat → AttemptOutcome)
    (now jitter : Nat → ℚ) : FetchJsonResult × List ℚ :=
  match fetchLoop cfg outcomes now jitter none 1 (max 1 cfg.max_attempts).toNat with
  | (some r, _, ws) => (r, ws)
  | (none, la, ws) =>
    (⟨false, none, .null, none, some "Unknown error.", cfg.max_attempts, la⟩, ws)

/-- The integer `Retry-After` carried by the response of attempt `a`
(`none` for a network exception or an absent/non-integer header). -/
def observedRA (o : Nat → AttemptOutcome) (a : Nat) : Option Int :=
  match o a with
  | .exc _ => none
  | .resp _ headers _ _ => retry_after_seconds (optHdrs headers)

/-- Fold the `Retry-After` observations of `n` attempts starting at attempt
`a` over the accumulator `acc`, keeping the most recent integer value. -/
def lastRAseg (o : Nat → AttemptOutcome) : Option Int → Nat → Nat → Option Int
  | acc, _, 0 => acc
  | acc, a, n + 1 =>
    lastRAseg o (match observedRA o a with | some v => some v | none => acc) (a + 1) n

/-- The most recent integer `Retry-After` among attempts `1..k`. -/
def lastRAupTo (o : Nat → AttemptOutcome) (k : Nat) : Option Int :=
  lastRAseg o none 1 k

/-- The result is a terminal HTTP-status failure (a response was received
and its status was outside 2xx). -/
def isTerminalHttpFailure (r : FetchJsonResult) : Prop :=
  match r.status with
  | some s => ¬(200 ≤ s ∧ s < 300)
  | none => False

/-! ## `_utils/github_token.py` -/

def DEFAULT_GITHUB_TOKEN_ENVS : List String := ["GH_TOKEN", "GH_API_TOKEN", "GITHUB_TOKEN"]

/-- The candidate names appended before the default list: the stripped
preferred name when truthy and stripped-truthy, then the stripped truthy
extra names in order.  (`if preferred_env and preferred_env.strip()` is
equivalent to the stripped name being non-empty.) -/
def tokenBaseCandidates (preferred_env : String) (extra_envs : List String) : List String :=
  (if pyStrip preferred_env ≠ "" then [pyStrip preferred_env] else []) ++
    (extra_envs.filter (fun k => pyStrip k ≠ "")).map pyStrip

/-- `for k in DEFAULT_GITHUB_TOKEN_ENVS: if k not in candidates:
candidates.append(k)`. -/
def appendDefaultCandidates (cs : List String) : List String :=
  DEFAULT_GITHUB_TOKEN_ENVS.foldl (fun acc k => if k ∈ acc then acc else acc ++ [k]) cs

/-- The full candidate list built by `get_github_token`. -/
def tokenCandidates (preferred_env : String) (extra_envs : List String) : List String :=
  appendDefaultCandidates (tokenBaseCandidates preferred_env extra_envs)

/-- The final lookup loop of `get_github_token`: return the stripped value of
the first candidate whose stripped environment value is non-empty. -/
def lookupTokenValue (env : String → Option String) : List String → Option String
  | [] => none
  | k :: ks =>
    match env k with
    | some v => if pyStrip v ≠ "" then some (pyStrip v) else lookupTokenValue env ks
    | none => lookupTokenValue env ks

/-- `get_github_token` from `github_token.py`, with `os.environ` passed as
`env`. -/
def get_github_token (env : String → Option String) (preferred_env : String)
    (extra_envs : List String) : Option String :=
  lookupTokenValue env (tokenCandidates preferred_env extra_envs)

/-- `has_github_token` from `github_token.py`. -/
def has_github_token (env : String → Option String) (preferred_env : String)
    (extra_envs : List String) : Bool :=
  (get_github_token env preferred_env extra_envs).isSome

/-- The resolver as the specification's sentence describes it, for
comparison with `get_github_token`: walk the candidate list with duplicates
removed (first occurrence kept) and return THE VALUE of the first variable
whose trimmed value is non-empty. -/
def specFirstTokenValue (env : String → Option String) : List String → Option String
  | [] => none
  | k :: ks =>
    match env k with
    | some v => if pyStrip v ≠ "" then some v else specFirstTokenValue env ks
    | none => specFirstTokenValue env ks

/-- Remove the elements already in `seen`, keeping first occurrences. -/
def dedupKeepFirstAux (seen : List String) : List String → List String
  | [] => []
  | x :: xs =>
    if x ∈ seen then dedupKeepFirstAux seen xs
    else x :: dedupKeepFirstAux (x :: seen) xs

def dedupKeepFirst (l : List String) : List String := dedupKeepFirstAux [] l

/-- The specification's description of token resolution (returns the raw,
untrimmed value of the winning variable). -/
def spec_token_resolver (env : String → Option String) (preferred_env : String)
    (extra_envs : List String) : Option String :=
  specFirstTokenValue env
    (dedupKeepFirst (tokenBaseCandidates preferred_env extra_envs ++ DEFAULT_GITHUB_TOKEN_ENVS))

/-- `env k` is skipped by the resolver loop: unset, or blank after
stripping. -/
def envMiss (env : String → Option String) (k : String) : Prop :=
  match env k with
  | some v => pyStrip v = ""
  | none => True

/-! ## `_utils/io.py` -/

/-- The filesystem: file contents by path. -/
def FS : Type := String → Option String

/-- Point update of the filesystem. -/
def fsSet (fs : FS) (p : String) (v : Option String) : FS :=
  fun q => if q = p then v else fs q

/-- `path.with_name(f"{path.name}.tmp.{os.getpid()}")`: the temp-file path
used by `dump_json_atomic`, in the same directory as `path`. -/
def tmp_name (path : String) (pid : Nat) : String :=
  path ++ ".tmp." ++ toString pid

/-- The failure oracle for one `dump_json_atomic` call.
`write_failure = some (written, e)` means serialization or the file write
raised `e` after `written` had reached the temp file (the `open("w")` has
already truncated it); `rename_failure = some e` means `tmp.replace(path)`
raised `e`; `cleanup_failure` means `tmp.exists()`/`tmp.unlink()` raised. -/
structure AtomicFailure where
  write_failure : Option (String × String) := none
  rename_failure : Option String := none
  cleanup_failure : Bool := false

/-- The `finally` block of `dump_json_atomic`: `if tmp.exists(): tmp.unlink()`
with any exception swallowed. -/
def cleanup_tmp (fs : FS) (tmp : String) (cleanup_failure : Bool) : FS :=
  if (fs tmp).isSome then (if cleanup_failure then fs else fsSet fs tmp none) else fs

/-- `dump_json_atomic` from `io.py`.  `content` is the serialized JSON text
(without the trailing newline the function appends).  Returns the filesystem
after the call together with the exception that propagated, if any.
Directory creation (`path.parent.mkdir`) is not modelled. -/
def dump_json_atomic (fs : FS) (path : String) (content : String) (pid : Nat)
    (f : AtomicFailure) : FS × Option String :=
  let tmp := tmp_name path pid
  match f.write_failure with
  | some (written, e) =>
    let fs1 := fsSet fs tmp (some written)
    (cleanup_tmp fs1 tmp f.cleanup_failure, some e)
  | none =>
    let fs1 := fsSet fs tmp (some (content ++ "\n"))
    match f.rename_failure with
    | some e => (cleanup_tmp fs1 tmp f.cleanup_failure, some e)
    | none =>
      let fs2 := fsSet (fsSet fs1 path (some (content ++ "\n"))) tmp none
      (cleanup_tmp fs2 tmp f.cleanup_failure, none)

/-! ### JSON serialization

Modelled from the spec: `dump_json`/`load_json` delegate serialization to
Python's `json` library, which is not part of the repository; the encoder is
reproduced here from the specification's file-format section (UTF-8 JSON,
2-space indentation, sorted object keys, trailing newline, non-ASCII left
unescaped) together with `json.dump`'s documented escaping rules, and the
decoder is a standard JSON reader restricted to integer numerals. -/

/-- Lower-case hexadecimal digit. -/
def hexDigitChar (n : Nat) : Char :=
  if n < 10 then Char.ofNat (48 + n) else Char.ofNat (87 + n)

/-- How `json.dump` (with `ensure_ascii=False`) writes one character of a
string: `"`, `\`, and the named control characters get two-character escapes,
the remaining control characters get `\u00xx`, everything else is literal. -/
def escapeChar (c : Char) : List Char :=
  if c = '"' then ['\\', '"']
  else if c = '\\' then ['\\', '\\']
  else if c = '\n' then ['\\', 'n']
  else if c = '\r' then ['\\', 'r']
  else if c = '\t' then ['\\', 't']
  else if c.toNat = 8 then ['\\', 'b']
  else if c.toNat = 12 then ['\\', 'f']
  else if c.toNat < 32 then
    ['\\', 'u', '0', '0', hexDigitChar (c.toNat / 16), hexDigitChar (c.toNat % 16)]
  else [c]

def escapeList : List Char → List Char
  | [] => []
  | c :: cs => escapeChar c ++ escapeList cs

/-- The keyword texts of the three JSON literals. -/
def kwNull : List Char := ['n', 'u', 'l', 'l']

def kwTrue : List Char := ['t', 'r', 'u', 'e']

def kwFalse : List Char := ['f', 'a', 'l', 's', 'e']

/-- The newline-plus-indentation separator `json.dump` emits at nesting
depth `d` when `indent=2`. -/
def nlIndent (d : Nat) : List Char := '\n' :: List.replicate (2 * d) ' '

mutual

/-- `json.dump(v, f, indent=2, ensure_ascii=False)` at nesting depth `d`
(key sorting is applied beforehand by `canonize`). -/
def dumpVal (d : Nat) (v : J) : List Char :=
  match v with
  | .null => kwNull
  | .bool true => kwTrue
  | .bool false => kwFalse
  | .num n => intChars n
  | .str s => '"' :: (escapeList s.data ++ ['"'])
  | .arr .nil => ['[', ']']
  | .arr (.cons v1 t) =>
    '[' :: (nlIndent (d + 1) ++ dumpVal (d + 1) v1 ++ dumpArrRest (d + 1) t ++
      nlIndent d ++ [']'])
  | .obj .nil => ['\x7b', '\x7d']
  | .obj (.cons k v1 t) =>
    '\x7b' :: (nlIndent (d + 1) ++
      ('"' :: (escapeList k.data ++ ['"', ':', ' '] ++ dumpVal (d + 1) v1)) ++
      dumpObjRest (d + 1) t ++ nlIndent d ++ ['\x7d'])
termination_by structural v

/-- The `, value` continuations after the first array element. -/
def dumpArrRest (d : Nat) (es : JArr) : List Char :=
  match es with
  | .nil => []
  | .cons v t => ',' :: (nlIndent d ++ dumpVal d v ++ dumpArrRest d t)
termination_by structural es

/-- The `, "key": value` continuations after the first object entry. -/
def dumpObjRest (d : Nat) (ms : JObj) : List Char :=
  match ms with
  | .nil => []
  | .cons k v t =>
    ',' :: (nlIndent d ++ ('"' :: (escapeList k.data ++ ['"', ':', ' '] ++ dumpVal d v)) ++
      dumpObjRest d t)
termination_by structural ms

end

/-- One `"key": value` object entry. -/
def dumpEntry (d : Nat) (k : String) (v : J) : List Char :=
  '"' :: (escapeList k.data ++ ['"', ':', ' '] ++ dumpVal d v)

/-- Lexicographic (code-point) comparison, Python's `str <`. -/
def charListLt : List Char → List Char → Bool
  | [], [] => false
  | [], _ :: _ => true
  | _ :: _, [] => false
  | a :: as, b :: bs =>
    if a < b then true else if b < a then false else charListLt as bs

def strLtB (a b : String) : Bool := charListLt a.data b.data

def strLeB (a b : String) : Bool := !(charListLt b.data a.data)

/-- Ordered insertion by key (`sort_keys=True` comparison). -/
def objInsert (k : String) (v : J) : JObj → JObj
  | .nil => .cons k v .nil
  | .cons k' v' t =>
    if strLeB k k' then .cons k v (.cons k' v' t) else .cons k' v' (objInsert k v t)

/-- Sort an object's members by key. -/
def objSort : JObj → JObj
  | .nil => .nil
  | .cons k v t => objInsert k v (objSort t)

mutual

/-- Apply `sort_keys=True` at every nesting level. -/
def canonize : J → J
  | .null => .null
  | .bool b => .bool b
  | .num n => .num n
  | .str s => .str s
  | .arr es => .arr (canonizeArr es)
  | .obj ms => .obj (objSort (canonizeObj ms))

def canonizeArr : JArr → JArr
  | .nil => .nil
  | .cons v t => .cons (canonize v) (canonizeArr t)

def canonizeObj : JObj → JObj
  | .nil => .nil
  | .cons k v t => .cons k (canonize v) (canonizeObj t)

end

/-- The text `dump_json` writes for `v`: the `json.dump` output (with
`indent=2, ensure_ascii=False, sort_keys=True`) plus a trailing newline. -/
def dump_json_text (v : J) : String := ⟨dumpVal 0 (canonize v) ++ ['\n']⟩

/-- `dump_json` from `io.py` (directory creation is not modelled). -/
def dump_json (fs : FS) (path : String) (v : J) : FS :=
  fsSet fs path (some (dump_json_text v))

/-! ### JSON parsing (model of `json.load`) -/

def isWsChar (c : Char) : Bool := c = ' ' || c = '\t' || c = '\n' || c = '\r'

def skipWs : List Char → List Char
  | [] => []
  | c :: cs => if isWsChar c then skipWs cs else c :: cs

def parseNatNum (cs : List Char) : Option (Nat × List Char) :=
  let ds := cs.takeWhile Char.isDigit
  if ds.isEmpty then none
  else some (digitsToNat ds, cs.dropWhile Char.isDigit)

def parseNum : List Char → Option (Int × List Char)
  | [] => none
  | c :: cs =>
    if c = '-' then (parseNatNum cs).map (fun p => (-(p.1 : Int), p.2))
    else (parseNatNum (c :: cs)).map (fun p => ((p.1 : Int), p.2))

def hexVal (c : Char) : Option Nat :=
  if c.isDigit then some (c.toNat - 48)
  else if 'a' ≤ c && c ≤ 'f' then some (c.toNat - 87)
  else if 'A' ≤ c && c ≤ 'F' then some (c.toNat - 55)
  else none

/-- Prepend a decoded character to a string-body parse result. -/
def consStr (c : Char) (r : Option (List Char × List Char)) :
    Option (List Char × List Char) :=
  r.map (fun p => (c :: p.1, p.2))

/-- Parse the body of a JSON string after the opening quote, returning the
decoded characters and the input after the closing quote. -/
def parseStrBody : List Char → Option (List Char × List Char)
  | [] => none
  | c :: cs =>
    if c = '"' then some ([], cs)
    else if c = '\\' then
      match cs with
      | [] => none
      | e :: cs' =>
        if e = '"' then consStr '"' (parseStrBody cs')
        else if e = '\\' then consStr '\\' (parseStrBody cs')
        else if e = '/' then consStr '/' (parseStrBody cs')
        else if e = 'n' then consStr '\n' (parseStrBody cs')
        else if e = 'r' then consStr '\r' (parseStrBody cs')
        else if e = 't' then consStr '\t' (parseStrBody cs')
        else if e = 'b' then consStr (Char.ofNat 8) (parseStrBody cs')
        else if e = 'f' then consStr (Char.ofNat 12) (parseStrBody cs')
        else if e = 'u' then
          match cs' with
          | h1 :: h2 :: h3 :: h4 :: cs'' =>
            match hexVal h1, hexVal h2, hexVal h3, hexVal h4 with
            | some a, some b, some c2, some d2 =>
              consStr (Char.ofNat (((a * 16 + b) * 16 + c2) * 16 + d2)) (parseStrBody cs'')
            | _, _, _, _ => none
          | _ => none
        else none
    else consStr c (parseStrBody cs)

/-- Match an expected literal token, returning the input after it. -/
def dropToken : List Char → List Char → Option (List Char)
  | [], cs => some cs
  | _ :: _, [] => none
  | p :: ps, c :: cs => if c = p then dropToken ps cs else none

/-- What one recursive step of the parser is asked to read: a value, the
tail of an array, or the tail of an object. -/
inductive ParseMode where
  | pv
  | pe
  | pm

/-- The three possible outputs of a parser step. -/
inductive ParseOut where
  | val (v : J)
  | elems (es : JArr)
  | members (ms : JObj)
  deriving DecidableEq

/-- Fueled recursive-descent JSON parser; the three grammar productions are
one structurally recursive function so that evaluation is by computation. -/
def parseCore : Nat → ParseMode → List Char → Option (ParseOut × List Char)
  | 0, _, _ => none
  | fuel + 1, .pv, cs =>
    match skipWs cs with
    | [] => none
    | c :: rest =>
      if c = 'n' then
        match dropToken ['u', 'l', 'l'] rest with
        | some r => some (.val .null, r)
        | none => none
      else if c = 't' then
        match dropToken ['r', 'u', 'e'] rest with
        | some r => some (.val (.bool true), r)
        | none => none
      else if c = 'f' then
        match dropToken ['a', 'l', 's', 'e'] rest with
        | some r => some (.val (.bool false), r)
        | none => none
      else if c = '"' then
        match parseStrBody rest with
        | some (content, rest') => some (.val (.str ⟨content⟩), rest')
        | none => none
      else if c = '[' then
        match skipWs rest with
        | [] => none
        | c2 :: rest2 =>
          if c2 = ']' then some (.val (.arr .nil), rest2)
          else
            match parseCore fuel .pe rest with
            | some (.elems es, rest') => some (.val (.arr es), rest')
            | _ => none
      else if c = '\x7b' then
        match skipWs rest with
        | [] => none
        | c2 :: rest2 =>
          if c2 = '\x7d' then some (.val (.obj .nil), rest2)
          else
            match parseCore fuel .pm rest with
            | some (.members ms, rest') => some (.val (.obj ms), rest')
            | _ => none
      else
        match parseNum (c :: rest) with
        | some (n, rest') => some (.val (.num n), rest')
        | none => none
  | fuel + 1, .pe, cs =>
    match parseCore fuel .pv cs with
    | some (.val v, rest) =>
      (match skipWs rest with
       | [] => none
       | c :: rest' =>
         if c = ',' then
           match parseCore fuel .pe rest' with
           | some (.elems es, rest'') => some (.elems (.cons v es), rest'')
           | _ => none
         else if c = ']' then some (.elems (.cons v .nil), rest')
         else none)
    | _ => none
  | fuel + 1, .pm, cs =>
    match skipWs cs with
    | [] => none
    | c :: rest =>
      if c = '"' then
        match parseStrBody rest with
        | none => none
        | some (k, rest1) =>
          match skipWs rest1 with
          | [] => none
          | c1 :: rest2 =>
            if c1 = ':' then
              match parseCore fuel .pv rest2 with
              | some (.val v, rest3) =>
                (match skipWs rest3 with
                 | [] => none
                 | c2 :: rest4 =>
                   if c2 = ',' then
                     match parseCore fuel .pm rest4 with
                     | some (.members ms, rest5) => some (.members (.cons ⟨k⟩ v ms), rest5)
                     | _ => none
                   else if c2 = '\x7d' then some (.members (.cons ⟨k⟩ v .nil), rest4)
                   else none)
              | _ => none
            else none
      else none

/-- Parse one JSON value. -/
def parseVal (fuel : Nat) (cs : List Char) : Option (J × List Char) :=
  match parseCore fuel .pv cs with
  | some (.val v, rest) => some (v, rest)
  | _ => none

/-- `json.load` on a complete text: parse one value and require only
whitespace after it. -/
def loads (s : String) : Option J :=
  match parseVal (s.data.length + 1) s.data with
  | some (v, rest) => if (skipWs rest).isEmpty then some v else none
  | none => none

/-- `load_json` from `io.py`: `none` models a raised exception (missing file
or invalid JSON). -/
def load_json (fs : FS) (path : String) : Option J :=
  (fs path).bind loads

/-! ### Well-formed values

The embedding of a Python dict is an association list with strictly sorted
keys (Python dicts have unique keys and compare without regard to order, so
the sorted list is the canonical representative). -/

mutual

/-- Parser fuel sufficient for one value. -/
def fuelV : J → Nat
  | .null => 1
  | .bool _ => 1
  | .num _ => 1
  | .str _ => 1
  | .arr es => 1 + fuelE es
  | .obj ms => 1 + fuelM ms

def fuelE : JArr → Nat
  | .nil => 0
  | .cons v t => 1 + fuelV v + fuelE t

def fuelM : JObj → Nat
  | .nil => 0
  | .cons _ v t => 1 + fuelV v + fuelM t

end

/-- The input does not continue a numeric literal. -/
def numBoundary (cs : List Char) : Prop :=
  match cs with
  | [] => True
  | c :: _ => c.isDigit = false

def JObj.sortedKeys : JObj → Bool
  | .nil => true
  | .cons k _ t =>
    (match t with
     | .nil => true
     | .cons k' _ _ => strLtB k k') && JObj.sortedKeys t

mutual

def J.wf : J → Bool
  | .null => true
  | .bool _ => true
  | .num _ => true
  | .str _ => true
  | .arr es => JArr.wf es
  | .obj ms => JObj.sortedKeys ms && JObj.wf ms

def JArr.wf : JArr → Bool
  | .nil => true
  | .cons v t => J.wf v && JArr.wf t

def JObj.wf : JObj → Bool
  | .nil => true
  | .cons _ v t => J.wf v && JObj.wf t

end

/-! ## Concrete instances used by witnesses and counterexamples -/

/-- Environment with `GH_TOKEN=""` and `GITHUB_TOKEN="abc"`. -/
def envEmptyGh : String → Option String := fun k =>
  if k = "GH_TOKEN" then some "" else if k = "GITHUB_TOKEN" then some "abc" else none

/-- Environment whose `GH_TOKEN` value has surrounding whitespace. -/
def envSpacedGh : String → Option String := fun k =>
  if k = "GH_TOKEN" then some " abc " else none

/-- Every attempt yields a 200 response whose body is the JSON text
`null`. -/
def outNull200 : Nat → AttemptOutcome := fun _ => .resp 200 [] (.ok .null) none

/-- Constant-zero clock and jitter. -/
def zeroQ : Nat → ℚ := fun _ => 0

/-- A single-attempt retry policy. -/
def cfgOne : RetryConfig := { max_attempts := 1 }

/-- Every attempt yields a 503 whose body text is `"oops"`. -/
def out503 : Nat → AttemptOutcome := fun _ => .resp 503 [] (.error "x") (some "oops")

/-- Every attempt yields a 200 whose body is not valid JSON. -/
def out200bad : Nat → AttemptOutcome := fun _ => .resp 200 [] (.error "boom") none

/-- Rate-limit headers: `Retry-After: 5`, `X-RateLimit-Remaining: 0`,
`X-RateLimit-Reset: 1100`. -/
def hdrsRL : List (String × String) :=
  [("Retry-After", "5"), ("X-RateLimit-Remaining", "0"), ("X-RateLimit-Reset", "1100")]

/-- Every attempt yields a 503 carrying the rate-limit headers. -/
def out503rl : Nat → AttemptOutcome := fun _ => .resp 503 hdrsRL (.error "x") none

/-- A clock frozen at epoch second 1000. -/
def clock1000 : Nat → ℚ := fun _ => 1000

/-- Attempt 1: 503 with `Retry-After: 5`; attempt 2: 200 with
`Retry-After: 7` and a valid JSON body. -/
def outRAswitch : Nat → AttemptOutcome := fun a =>
  if a = 1 then .resp 503 [("Retry-After", "5")] (.error "x") none
  else .resp 200 [("Retry-After", "7")] (.ok (.bool true)) none

/-- A filesystem holding one file `a.json` with content `old`. -/
def fsOld : FS := fun p => if p = "a.json" then some "old" else none

/-- The rename step fails; writing and cleanup succeed. -/
def afRenameFails : AtomicFailure := { rename_failure := some "EPERM" }

/-- Serialization fails midway through the write; cleanup succeeds. -/
def afWriteFails : AtomicFailure := { write_failure := some ("\x7b\"part", "SerializationError") }

/-- A nested well-formed value for the write/read roundtrip: an object whose
keys are sorted, holding an array with a negative number, an escaped string
and a null. -/
def vRound : J :=
  .obj (.cons "a" (.arr (.cons (.num (-42)) (.cons (.str "x\"y\n\x01") (.cons .null .nil))))
    (.cons "b" (.bool false) .nil))

/-! ## Theorems -/

theorem lookupTokenValue_eq_map_strip (env : String → Option String) :
    ∀ l, lookupTokenValue env l = Option.map pyStrip (specFirstTokenValue env l) := by
  intro l
  induction l with
  | nil => rfl
  | cons k ks ih =>
    simp only [lookupTokenValue, specFirstTokenValue]
    cases h : env k with
    | none => exact ih
    | some v =>
      by_cases hv : pyStrip v = ""
      · simp [hv, ih]
      · simp [hv]

theorem specFirst_skip_miss (env : String → Option String) (x : String)
    (hx : envMiss env x) :
    ∀ l1 l2, specFirstTokenValue env (l1 ++ x :: l2) = specFirstTokenValue env (l1 ++ l2) := by
  intro l1
  induction l1 with
  | nil =>
    intro l2
    simp only [List.nil_append, specFirstTokenValue]
    unfold envMiss at hx
    cases h : env x with
    | none => simp [h] at hx ⊢
    | some v => rw [h] at hx; simp [h, hx]
  | cons a t ih =>
    intro l2
    simp only [List.cons_append, specFirstTokenValue]
    cases h : env a with
    | none => exact ih l2
    | some v =>
      by_cases hv : pyStrip v = ""
      · simp [hv, ih l2]
      · simp [hv]

theorem specFirst_skip_dup (env : String → Option String) (x : String) :
    ∀ l1 l2, x ∈ l1 →
      specFirstTokenValue env (l1 ++ x :: l2) = specFirstTokenValue env (l1 ++ l2) := by
  intro l1
  induction l1 with
  | nil => intro l2 h; exact absurd h (List.not_mem_nil x)
  | cons a t ih =>
    intro l2 hmem
    simp only [List.cons_append, specFirstTokenValue]
    cases h : env a with
    | none =>
      rcases List.mem_cons.mp hmem with rfl | hx
      · exact specFirst_skip_miss env x (by unfold envMiss; rw [h]; trivial) t l2
      · exact ih l2 hx
    | some v =>
      by_cases hv : pyStrip v = ""
      · rcases List.mem_cons.mp hmem with rfl | hx
        · simpa [hv] using
            specFirst_skip_miss env x (by unfold envMiss; rw [h]; exact hv) t l2
        · simp [hv, ih l2 hx]
      · simp [hv]

theorem specFirst_foldl_dedup (env : String → Option String) :
    ∀ (ds cs : List String),
      specFirstTokenValue env
          (List.foldl (fun acc k => if k ∈ acc then acc else acc ++ [k]) cs ds)
        = specFirstTokenValue env (cs ++ ds) := by
  intro ds
  induction ds with
  | nil => intro cs; simp
  | cons d ds' ih =>
    intro cs
    simp only [List.foldl_cons]
    by_cases hd : d ∈ cs
    · simp only [if_pos hd]
      rw [ih cs, specFirst_skip_dup env d cs ds' hd]
    · simp only [if_neg hd]
      rw [ih (cs ++ [d]), List.append_assoc]
      rfl

theorem specFirst_dedupAux (env : String → Option String) :
    ∀ (l pre seen : List String), (∀ x ∈ seen, x ∈ pre) →
      specFirstTokenValue env (pre ++ dedupKeepFirstAux seen l)
        = specFirstTokenValue env (pre ++ l) := by
  intro l
  induction l with
  | nil => intro pre seen _; rfl
  | cons x xs ih =>
    intro pre seen hsub
    simp only [dedupKeepFirstAux]
    by_cases hx : x ∈ seen
    · rw [if_pos hx, ih pre seen hsub, specFirst_skip_dup env x pre xs (hsub x hx)]
    · rw [if_neg hx]
      have h1 : pre ++ x :: dedupKeepFirstAux (x :: seen) xs
          = (pre ++ [x]) ++ dedupKeepFirstAux (x :: seen) xs := by
        simp
      have h2 : ∀ y ∈ x :: seen, y ∈ pre ++ [x] := by
        intro y hy
        rcases List.mem_cons.mp hy with rfl | hy'
        · simp
        · exact List.mem_append_left _ (hsub y hy')
      rw [h1, ih (pre ++ [x]) (x :: seen) h2]
      simp

theorem specFirst_dedupKeepFirst (env : String → Option String) (l : List String) :
    specFirstTokenValue env (dedupKeepFirst l) = specFirstTokenValue env l := by
  simpa using specFirst_dedupAux env l [] [] (by simp)

/-- C2 (amended): `get_github_token` walks the candidates in order —
preferred, extras, defaults, duplicates dropped — and returns the TRIMMED
value of the first variable whose trimmed value is non-empty (`none` when
there is no such variable); with `GH_TOKEN=""` and `GITHUB_TOKEN="abc"` it
returns `"abc"`. -/
theorem C2_token_resolution_amended :
    (∀ (env : String → Option String) (p : String) (ex : List String),
        get_github_token env p ex = Option.map pyStrip (spec_token_resolver env p ex))
    ∧ get_github_token envEmptyGh "GH_TOKEN" [] = some "abc" := by
  constructor
  · intro env p ex
    rw [get_github_token, lookupTokenValue_eq_map_strip, spec_token_resolver,
      specFirst_dedupKeepFirst]
    unfold tokenCandidates appendDefaultCandidates
    rw [specFirst_foldl_dedup]
  · decide

/-- C2 (counterexample): the claim says the resolver returns THE VALUE of
the first environment variable whose trimmed value is non-empty, but on
`GH_TOKEN=" abc "` the code returns the trimmed `"abc"`, not the variable's
value `" abc "`. -/
theorem C2_counterexample :
    envSpacedGh "GH_TOKEN" = some " abc " ∧
    get_github_token envSpacedGh "GH_TOKEN" [] = some "abc" ∧
    get_github_token envSpacedGh "GH_TOKEN" [] ≠ some " abc " := by
  refine ⟨by decide, by decide, by decide⟩

/-! ### The fetch loop always returns from inside the loop -/

theorem fetchLoop_returns (cfg : RetryConfig) (o : Nat → AttemptOutcome)
    (now jitter : Nat → ℚ) :
    ∀ (rem a : Nat) (acc : Option Int),
      1 ≤ rem → cfg.max_attempts ≤ (a : Int) + (rem : Int) - 1 →
      ∃ r la ws, fetchLoop cfg o now jitter acc a rem = (some r, la, ws) ∧
        (a : Int) ≤ r.attempts ∧ r.attempts ≤ (a : Int) + (rem : Int) - 1 ∧
        (r.ok = true ↔ r.error = none) ∧ (r.ok = false → r.data = J.null) := by
  intro rem
  induction rem with
  | zero => intro a acc h; omega
  | succ n ih =>
    intro a acc _ hbound
    rcases ho : o a with msg | ⟨status, headers, body, text⟩
    · by_cases hle : cfg.max_attempts ≤ (a : Int)
      · simp only [fetchLoop, ho, if_pos hle]
        exact ⟨_, _, _, rfl, by simp, by simp; omega, by simp, by simp⟩
      · simp only [fetchLoop, ho, if_neg hle]
        obtain ⟨r', la', ws', heq, hb1, hb2, hiff, hdata⟩ :=
          ih (a + 1) acc (by omega) (by push_cast at hbound ⊢; omega)
        rw [heq]
        exact ⟨r', la', _, rfl, by push_cast at hb1 ⊢; omega,
          by push_cast at hb2 ⊢; omega, hiff, hdata⟩
    · by_cases h2xx : 200 ≤ status ∧ status < 300
      · rcases body with e | d
        · simp only [fetchLoop, ho, if_pos h2xx]
          exact ⟨_, _, _, rfl, by simp, by simp; omega, by simp, by simp⟩
        · simp only [fetchLoop, ho, if_pos h2xx]
          exact ⟨_, _, _, rfl, by simp, by simp; omega, by simp, by simp⟩
      · by_cases hretry : status ∈ cfg.retry_statuses ∧ (a : Int) < cfg.max_attempts
        · simp only [fetchLoop, ho, if_neg h2xx, if_pos hretry]
          obtain ⟨r', la', ws', heq, hb1, hb2, hiff, hdata⟩ :=
            ih (a + 1)
              (match retry_after_seconds (optHdrs headers) with
               | some v => some v
               | none => acc)
              (by omega) (by push_cast at hbound ⊢; omega)
          rw [heq]
          exact ⟨r', la', _, rfl, by push_cast at hb1 ⊢; omega,
            by push_cast at hb2 ⊢; omega, hiff, hdata⟩
        · simp only [fetchLoop, ho, if_neg h2xx, if_neg hretry]
          exact ⟨_, _, _, rfl, by simp, by simp; omega, by simp, by simp⟩

/-- `fetch_json` takes its result from the loop, with the attempt count
bounded by the (clamped) attempt budget and the success/error fields in
their claimed relation. -/
theorem fetch_json_from_loop (cfg : RetryConfig) (o : Nat → AttemptOutcome)
    (now jitter : Nat → ℚ) :
    ∃ r la ws,
      fetchLoop cfg o now jitter none 1 (max 1 cfg.max_attempts).toNat = (some r, la, ws) ∧
      fetch_json cfg o now jitter = (r, ws) ∧
      1 ≤ r.attempts ∧ r.attempts ≤ max 1 cfg.max_attempts ∧
      (r.ok = true ↔ r.error = none) ∧ (r.ok = false → r.data = J.null) := by
  have h1 : (1 : Int) ≤ max 1 cfg.max_attempts := le_max_left _ _
  have h2 : cfg.max_attempts ≤ max 1 cfg.max_attempts := le_max_right _ _
  have h3 : ((max 1 cfg.max_attempts).toNat : Int) = max 1 cfg.max_attempts :=
    Int.toNat_of_nonneg (by omega)
  obtain ⟨r, la, ws, heq, hb1, hb2, hiff, hdata⟩ :=
    fetchLoop_returns cfg o now jitter (max 1 cfg.max_attempts).toNat 1 none
      (by omega) (by push_cast; omega)
  refine ⟨r, la, ws, heq, ?_, by omega, by omega, hiff, hdata⟩
  rw [fetch_json, heq]

/-- C9: for every `RetryConfig` (including non-positive `max_attempts`)
`fetch_json` performs at least one attempt and returns the result of a
`return` inside the loop, with `attempts` between 1 and
`max(1, max_attempts)`; the post-loop `"Unknown error."` fallback is
unreachable. -/
theorem C9_loop_always_returns (cfg : RetryConfig) (o : Nat → AttemptOutcome)
    (now jitter : Nat → ℚ) :
    ∃ r la ws,
      fetchLoop cfg o now jitter none 1 (max 1 cfg.max_attempts).toNat = (some r, la, ws) ∧
      fetch_json cfg o now jitter = (r, ws) ∧
      1 ≤ r.attempts ∧ r.attempts ≤ max 1 cfg.max_attempts := by
  obtain ⟨r, la, ws, heq, hfj, hb1, hb2, _, _⟩ := fetch_json_from_loop cfg o now jitter
  exact ⟨r, la, ws, heq, hfj, hb1, hb2⟩

/-- C1 (amended): for `max_attempts ≥ 1`, the result satisfies
`ok = true ↔ error = none`; on failure `data` is null (on success `data` is
the parsed payload, which may itself be JSON null); and `attempts` lies
between 1 and `max_attempts`. -/
theorem C1_result_invariant_amended (cfg : RetryConfig) (o : Nat → AttemptOutcome)
    (now jitter : Nat → ℚ) (h : 1 ≤ cfg.max_attempts) :
    ((fetch_json cfg o now jitter).1.ok = true ↔
      (fetch_json cfg o now jitter).1.error = none) ∧
    ((fetch_json cfg o now jitter).1.ok = false →
      (fetch_json cfg o now jitter).1.data = J.null) ∧
    1 ≤ (fetch_json cfg o now jitter).1.attempts ∧
    (fetch_json cfg o now jitter).1.attempts ≤ cfg.max_attempts := by
  obtain ⟨r, la, ws, _, hfj, hb1, hb2, hiff, hdata⟩ := fetch_json_from_loop cfg o now jitter
  rw [hfj]
  have hmax : max 1 cfg.max_attempts = cfg.max_attempts := max_eq_right h
  exact ⟨hiff, hdata, hb1, by rw [hmax] at hb2; exact hb2⟩

/-- C1 (witness): the amended invariant at a concrete call. -/
theorem C1_witness :
    (1 : Int) ≤ RetryConfig.max_attempts {} ∧
    (((fetch_json {} outNull200 zeroQ zeroQ).1.ok = true ↔
        (fetch_json {} outNull200 zeroQ zeroQ).1.error = none) ∧
      ((fetch_json {} outNull200 zeroQ zeroQ).1.ok = false →
        (fetch_json {} outNull200 zeroQ zeroQ).1.data = J.null) ∧
      1 ≤ (fetch_json {} outNull200 zeroQ zeroQ).1.attempts ∧
      (fetch_json {} outNull200 zeroQ zeroQ).1.attempts ≤ RetryConfig.max_attempts {}) :=
  ⟨by decide, C1_result_invariant_amended {} outNull200 zeroQ zeroQ (by decide)⟩

/-- C1 (counterexample): a 200 response whose body is the JSON text `null`
yields `ok = true` with `data` null and `error` null, so
`ok = true ↔ (data non-null ∧ error null)` fails. -/
theorem C1_counterexample :
    (fetch_json {} outNull200 zeroQ zeroQ).1.ok = true ∧
    (fetch_json {} outNull200 zeroQ zeroQ).1.data = J.null ∧
    (fetch_json {} outNull200 zeroQ zeroQ).1.error = none ∧
    ¬((fetch_json {} outNull200 zeroQ zeroQ).1.ok = true ↔
      ((fetch_json {} outNull200 zeroQ zeroQ).1.data ≠ J.null ∧
        (fetch_json {} outNull200 zeroQ zeroQ).1.error = none)) := by
  refine ⟨by decide, by decide, by decide, by decide⟩

/-- C5: with `max_attempts = 1` and a retryable (non-2xx) status on the only
attempt, the result is a terminal failure whose error message starts with
`HTTP {status}`, and no sleep happens. -/
theorem C5_single_attempt_no_sleep (cfg : RetryConfig) (o : Nat → AttemptOutcome)
    (now jitter : Nat → ℚ) (status : Int) (headers : List (String × String))
    (body : Except String J) (text : Option String)
    (hma : cfg.max_attempts = 1)
    (h1 : o 1 = .resp status headers body text)
    (h2 : ¬(200 ≤ status ∧ status < 300))
    (_h3 : status ∈ cfg.retry_statuses) :
    (fetch_json cfg o now jitter).1.ok = false ∧
    (fetch_json cfg o now jitter).1.status = some status ∧
    (∃ suffix, (fetch_json cfg o now jitter).1.error =
      some ("HTTP " ++ intStr status ++ suffix)) ∧
    (fetch_json cfg o now jitter).2 = [] := by
  have hN : (max 1 cfg.max_attempts).toNat = 1 := by rw [hma]; rfl
  have hretry : ¬(status ∈ cfg.retry_statuses ∧ ((1 : Nat) : Int) < cfg.max_attempts) := by
    rw [hma]; rintro ⟨-, hlt⟩; omega
  rw [fetch_json, hN]
  simp only [fetchLoop, h1, if_neg h2, if_neg hretry]
  refine ⟨by trivial, by trivial, ?_, by trivial⟩
  exact ⟨_, by rw [String.append_assoc]⟩

/-- C5 (witness): the single-attempt terminal failure at a concrete call. -/
theorem C5_witness :
    cfgOne.max_attempts = 1 ∧
    out503 1 = .resp 503 [] (.error "x") (some "oops") ∧
    ¬(200 ≤ (503 : Int) ∧ (503 : Int) < 300) ∧
    (503 : Int) ∈ cfgOne.retry_statuses ∧
    ((fetch_json cfgOne out503 zeroQ zeroQ).1.ok = false ∧
      (fetch_json cfgOne out503 zeroQ zeroQ).1.status = some 503 ∧
      (∃ suffix, (fetch_json cfgOne out503 zeroQ zeroQ).1.error =
        some ("HTTP " ++ intStr 503 ++ suffix)) ∧
      (fetch_json cfgOne out503 zeroQ zeroQ).2 = []) :=
  ⟨rfl, rfl, by decide, by decide,
    C5_single_attempt_no_sleep cfgOne out503 zeroQ zeroQ 503 [] (.error "x") (some "oops")
      rfl rfl (by decide) (by decide)⟩

/-- C6: a 2xx response makes the loop return immediately at the current
attempt with no sleep: on a JSON parse failure with `ok = false` and an
`Invalid JSON payload` message, on parse success with `ok = true`, the
parsed data and the response headers. -/
theorem C6_2xx_returns_immediately (cfg : RetryConfig) (o : Nat → AttemptOutcome)
    (now jitter : Nat → ℚ) (acc : Option Int) (a rem : Nat) (status : Int)
    (headers : List (String × String)) (body : Except String J) (text : Option String)
    (h1 : o a = .resp status headers body text)
    (h2 : 200 ≤ status ∧ status < 300) :
    (∀ e, body = .error e →
      fetchLoop cfg o now jitter acc a (rem + 1) =
        (some ⟨false, some status, .null, optHdrs headers,
          some ("Invalid JSON payload: " ++ e), (a : Int), acc⟩, acc, [])) ∧
    (∀ d, body = .ok d →
      fetchLoop cfg o now jitter acc a (rem + 1) =
        (some ⟨true, some status, d, optHdrs headers, none, (a : Int), acc⟩, acc, [])) := by
  constructor
  · rintro e rfl
    simp only [fetchLoop, h1, if_pos h2]
  · rintro d rfl
    simp only [fetchLoop, h1, if_pos h2]

/-- C6 (witness): the parse-failure case at a concrete call. -/
theorem C6_witness :
    out200bad 1 = .resp 200 [] (.error "boom") none ∧
    (200 ≤ (200 : Int) ∧ (200 : Int) < 300) ∧
    fetchLoop {} out200bad zeroQ zeroQ none 1 6 =
      (some ⟨false, some 200, .null, none, some "Invalid JSON payload: boom", 1, none⟩,
        none, []) :=
  ⟨rfl, by decide,
    (C6_2xx_returns_immediately {} out200bad zeroQ zeroQ none 1 5 200 [] (.error "boom")
        none rfl (by decide)).1 "boom" rfl⟩

/-- C3: on a retryable-status response that is not the last attempt, the
wait slept before the next attempt is exactly `retry_wait` — the capped
exponential backoff raised to at least an integer `Retry-After` (when
present) and to at least the rate-limit reset wait (when computed), plus
jitter — and `retry_wait` is at least each of those three quantities. -/
theorem C3_retry_wait_spec (cfg : RetryConfig) (o : Nat → AttemptOutcome)
    (now jitter : Nat → ℚ) (acc : Option Int) (a rem : Nat) (status : Int)
    (headers : List (String × String)) (body : Except String J) (text : Option String)
    (h1 : o a = .resp status headers body text)
    (h2 : ¬(200 ≤ status ∧ status < 300))
    (h3 : status ∈ cfg.retry_statuses)
    (h4 : (a : Int) < cfg.max_attempts)
    (hj : 0 ≤ jitter a) :
    (∃ tailws,
      (fetchLoop cfg o now jitter acc a (rem + 1)).2.2 =
        retry_wait cfg (optHdrs headers) (now a) (jitter a) a :: tailws) ∧
    (∀ ra : Int, retry_after_seconds (optHdrs headers) = some ra →
      (ra : ℚ) ≤ retry_wait cfg (optHdrs headers) (now a) (jitter a) a) ∧
    (∀ rl : Int, rate_limit_reset_wait_s (optHdrs headers) (now a) = some rl →
      (rl : ℚ) ≤ retry_wait cfg (optHdrs headers) (now a) (jitter a) a) ∧
    min cfg.backoff_cap_s ((2 ^ a : ℚ) * cfg.backoff_base_s) ≤
      retry_wait cfg (optHdrs headers) (now a) (jitter a) a := by
  have hretry : status ∈ cfg.retry_statuses ∧ (a : Int) < cfg.max_attempts := ⟨h3, h4⟩
  refine ⟨?_, ?_, ?_, ?_⟩
  · simp only [fetchLoop, h1, if_neg h2, if_pos hretry]
    exact ⟨_, rfl⟩
  · intro ra hra
    rw [retry_wait]
    simp only [hra]
    cases hrl : rate_limit_reset_wait_s (optHdrs headers) (now a) with
    | none =>
      simp only [hrl]
      exact le_trans (le_max_right _ _) (le_add_of_nonneg_right hj)
    | some rl =>
      simp only [hrl]
      exact le_trans (le_trans (le_max_right _ _) (le_max_left _ _))
        (le_add_of_nonneg_right hj)
  · intro rl hrl
    rw [retry_wait]
    simp only [hrl]
    cases hra : retry_after_seconds (optHdrs headers) with
    | none =>
      simp only [hra]
      exact le_trans (le_max_right _ _) (le_add_of_nonneg_right hj)
    | some ra =>
      simp only [hra]
      exact le_trans (le_max_right _ _) (le_add_of_nonneg_right hj)
  · rw [retry_wait]
    cases hra : retry_after_seconds (optHdrs headers) with
    | none =>
      cases hrl : rate_limit_reset_wait_s (optHdrs headers) (now a) with
      | none => simp only [hra, hrl]; exact le_add_of_nonneg_right hj
      | some rl =>
        simp only [hra, hrl]
        exact le_trans (le_max_left _ _) (le_add_of_nonneg_right hj)
    | some ra =>
      cases hrl : rate_limit_reset_wait_s (optHdrs headers) (now a) with
      | none =>
        simp only [hra, hrl]
        exact le_trans (le_max_left _ _) (le_add_of_nonneg_right hj)
      | some rl =>
        simp only [hra, hrl]
        exact le_trans (le_trans (le_max_left _ _) (le_max_left _ _))
          (le_add_of_nonneg_right hj)

/-- C3 (witness): with `Retry-After: 5`, `X-RateLimit-Remaining: 0` and
`X-RateLimit-Reset` 100 seconds ahead of the clock, the computed wait is at
least 100 seconds and is the wait slept. -/
theorem C3_witness :
    rate_limit_reset_wait_s (optHdrs hdrsRL) (clock1000 1) = some 100 ∧
    (100 : ℚ) ≤ retry_wait {} (optHdrs hdrsRL) (clock1000 1) (zeroQ 1) 1 ∧
    (∃ tailws, (fetchLoop {} out503rl clock1000 zeroQ none 1 6).2.2 =
      retry_wait {} (optHdrs hdrsRL) (clock1000 1) (zeroQ 1) 1 :: tailws) := by
  have hspec :=
    C3_retry_wait_spec {} out503rl clock1000 zeroQ none 1 5 503 hdrsRL (.error "x") none
      rfl (by decide) (by decide) (by decide) le_rfl
  have hrl : rate_limit_reset_wait_s (optHdrs hdrsRL) (clock1000 1) = some 100 := by
    have hreset : maybe_int (get_header (optHdrs hdrsRL) "X-RateLimit-Reset") =
        some 1100 := by decide
    have hrem : maybe_int (get_header (optHdrs hdrsRL) "X-RateLimit-Remaining") =
        some 0 := by decide
    rw [rate_limit_reset_wait_s]
    simp only [hreset, hrem]
    norm_num [remainingPositive, clock1000]
  exact ⟨hrl, hspec.2.2.1 100 hrl, hspec.1⟩

/-- Within the loop, `last_retry_after_s` of any returned result is the fold
of the `Retry-After` observations of the attempts the loop consumed, with
the final response's own header consulted exactly when the return is a
terminal HTTP-status failure. -/
theorem fetchLoop_lastRA (cfg : RetryConfig) (o : Nat → AttemptOutcome)
    (now jitter : Nat → ℚ) :
    ∀ (rem a : Nat) (acc : Option Int) (r : FetchJsonResult) (la : Option Int) (ws : List ℚ),
      fetchLoop cfg o now jitter acc a rem = (some r, la, ws) →
      ∃ k : Nat, r.attempts = (k : Int) ∧ a ≤ k ∧
        (isTerminalHttpFailure r →
          r.last_retry_after_s =
            (match observedRA o k with
             | some v => some v
             | none => lastRAseg o acc a (k - a))) ∧
        (¬isTerminalHttpFailure r →
          r.last_retry_after_s = lastRAseg o acc a (k - a)) := by
  intro rem
  induction rem with
  | zero => intro a acc r la ws h; simp [fetchLoop] at h
  | succ n ih =>
    intro a acc r la ws h
    rcases ho : o a with msg | ⟨status, headers, body, text⟩
    · by_cases hle : cfg.max_attempts ≤ (a : Int)
      · simp only [fetchLoop, ho, if_pos hle, Prod.mk.injEq, Option.some.injEq] at h
        obtain ⟨hr, -, -⟩ := h
        subst hr
        refine ⟨a, rfl, le_refl a, ?_, fun _ => by simp [lastRAseg]⟩
        intro habs
        simp [isTerminalHttpFailure] at habs
      · simp only [fetchLoop, ho, if_neg hle] at h
        rcases hF : fetchLoop cfg o now jitter acc (a + 1) n with ⟨ro, lao, wso⟩
        rw [hF] at h
        simp only [Prod.mk.injEq] at h
        obtain ⟨hro, -, -⟩ := h
        subst hro
        obtain ⟨k, hk, hak, hterm, hnterm⟩ := ih (a + 1) acc r lao wso hF
        have hka : k - a = (k - (a + 1)) + 1 := by omega
        have hseg : lastRAseg o acc a (k - a) = lastRAseg o acc (a + 1) (k - (a + 1)) := by
          rw [hka]
          simp only [lastRAseg, observedRA, ho]
        exact ⟨k, hk, by omega, by rw [hseg]; exact hterm, by rw [hseg]; exact hnterm⟩
    · by_cases h2xx : 200 ≤ status ∧ status < 300
      · rcases body with e | d
        · simp only [fetchLoop, ho, if_pos h2xx, Prod.mk.injEq, Option.some.injEq] at h
          obtain ⟨hr, -, -⟩ := h
          subst hr
          refine ⟨a, rfl, le_refl a, ?_, fun _ => by simp [lastRAseg]⟩
          intro habs
          simp [isTerminalHttpFailure] at habs
          omega
        · simp only [fetchLoop, ho, if_pos h2xx, Prod.mk.injEq, Option.some.injEq] at h
          obtain ⟨hr, -, -⟩ := h
          subst hr
          refine ⟨a, rfl, le_refl a, ?_, fun _ => by simp [lastRAseg]⟩
          intro habs
          simp [isTerminalHttpFailure] at habs
          omega
      · by_cases hretry : status ∈ cfg.retry_statuses ∧ (a : Int) < cfg.max_attempts
        · simp only [fetchLoop, ho, if_neg h2xx, if_pos hretry] at h
          rcases hF : fetchLoop cfg o now jitter
              (match retry_after_seconds (optHdrs headers) with
               | some v => some v
               | none => acc) (a + 1) n with ⟨ro, lao, wso⟩
          rw [hF] at h
          simp only [Prod.mk.injEq] at h
          obtain ⟨hro, -, -⟩ := h
          subst hro
          obtain ⟨k, hk, hak, hterm, hnterm⟩ := ih (a + 1) _ r lao wso hF
          have hka : k - a = (k - (a + 1)) + 1 := by omega
          have hseg : lastRAseg o acc a (k - a) =
              lastRAseg o
                (match retry_after_seconds (optHdrs headers) with
                 | some v => some v
                 | none => acc) (a + 1) (k - (a + 1)) := by
            rw [hka]
            simp only [lastRAseg, observedRA, ho]
          exact ⟨k, hk, by omega, by rw [hseg]; exact hterm, by rw [hseg]; exact hnterm⟩
        · simp only [fetchLoop, ho, if_neg h2xx, if_neg hretry, Prod.mk.injEq,
            Option.some.injEq] at h
          obtain ⟨hr, -, -⟩ := h
          subst hr
          refine ⟨a, rfl, le_refl a, ?_, ?_⟩
          · intro _
            simp only [observedRA, ho, Nat.sub_self, lastRAseg]
          · intro hn
            exact absurd (by simp [isTerminalHttpFailure]; omega) hn

/-- C4 (amended): `last_retry_after_s` is the most recent integer
`Retry-After` among the retried attempts, additionally taking the final
response's own header into account exactly when the result is a terminal
HTTP-status failure; a success or invalid-JSON result keeps the value
remembered from earlier attempts even if its own response carries the
header. -/
theorem C4_last_retry_after_amended (cfg : RetryConfig) (o : Nat → AttemptOutcome)
    (now jitter : Nat → ℚ) :
    ∃ k : Nat,
      (fetch_json cfg o now jitter).1.attempts = (k : Int) ∧ 1 ≤ k ∧
      (isTerminalHttpFailure (fetch_json cfg o now jitter).1 →
        (fetch_json cfg o now jitter).1.last_retry_after_s =
          (match observedRA o k with
           | some v => some v
           | none => lastRAupTo o (k - 1))) ∧
      (¬isTerminalHttpFailure (fetch_json cfg o now jitter).1 →
        (fetch_json cfg o now jitter).1.last_retry_after_s = lastRAupTo o (k - 1)) := by
  obtain ⟨r, la, ws, heq, hfj, -, -, -, -⟩ := fetch_json_from_loop cfg o now jitter
  obtain ⟨k, hk, hak, hterm, hnterm⟩ := fetchLoop_lastRA cfg o now jitter _ 1 none r la ws heq
  rw [hfj]
  exact ⟨k, hk, hak, by simpa [lastRAupTo] using hterm, by simpa [lastRAupTo] using hnterm⟩

/-- C4 (witness): the amended characterization at a concrete call. -/
theorem C4_witness :
    ∃ k : Nat,
      (fetch_json {} outRAswitch zeroQ zeroQ).1.attempts = (k : Int) ∧ 1 ≤ k ∧
      (isTerminalHttpFailure (fetch_json {} outRAswitch zeroQ zeroQ).1 →
        (fetch_json {} outRAswitch zeroQ zeroQ).1.last_retry_after_s =
          (match observedRA outRAswitch k with
           | some v => some v
           | none => lastRAupTo outRAswitch (k - 1))) ∧
      (¬isTerminalHttpFailure (fetch_json {} outRAswitch zeroQ zeroQ).1 →
        (fetch_json {} outRAswitch zeroQ zeroQ).1.last_retry_after_s =
          lastRAupTo outRAswitch (k - 1)) :=
  C4_last_retry_after_amended {} outRAswitch zeroQ zeroQ

/-- C4 (counterexample): attempt 1 is a retried 503 with `Retry-After: 5`,
attempt 2 a successful 200 carrying `Retry-After: 7`; the result's
`last_retry_after_s` is 5, not the most recent `Retry-After` (7) observed
across all attempts. -/
theorem C4_counterexample :
    (fetch_json {} outRAswitch zeroQ zeroQ).1.attempts = 2 ∧
    (fetch_json {} outRAswitch zeroQ zeroQ).1.last_retry_after_s = some 5 ∧
    lastRAupTo outRAswitch 2 = some 7 ∧
    (fetch_json {} outRAswitch zeroQ zeroQ).1.last_retry_after_s ≠
      lastRAupTo outRAswitch 2 := by
  refine ⟨by decide, by decide, by decide, by decide⟩

/-! ### Atomic JSON writer -/

theorem tmp_name_ne_path (path : String) (pid : Nat) : tmp_name path pid ≠ path := by
  intro h
  have hlen := congrArg String.length h
  have h5 : (".tmp." : String).length = 5 := rfl
  rw [tmp_name, String.length_append, String.length_append, h5] at hlen
  omega

theorem fsSet_same (fs : FS) (p : String) (v : Option String) : fsSet fs p v p = v := by
  simp [fsSet]

theorem fsSet_other (fs : FS) (p : String) (v : Option String) (q : String) (h : q ≠ p) :
    fsSet fs p v q = fs q := by
  simp [fsSet, h]

theorem cleanup_tmp_other (fs : FS) (tmp : String) (b : Bool) (q : String) (h : q ≠ tmp) :
    cleanup_tmp fs tmp b q = fs q := by
  rw [cleanup_tmp]
  split_ifs <;> simp [fsSet, h]

theorem cleanup_tmp_removes (fs : FS) (tmp : String) (hex : (fs tmp).isSome) :
    cleanup_tmp fs tmp false tmp = none := by
  rw [cleanup_tmp]
  simp [hex, fsSet]

/-- C7: the atomic writer leaves the target path either untouched or holding
exactly the new serialized content, never anything else; and after a failed
rename (with the write and the cleanup succeeding) the target is unchanged
and the temp file is gone. -/
theorem C7_atomic_all_or_nothing (fs : FS) (path content : String) (pid : Nat)
    (f : AtomicFailure) :
    ((dump_json_atomic fs path content pid f).1 path = fs path ∨
      (dump_json_atomic fs path content pid f).1 path = some (content ++ "\n")) ∧
    (∀ e, f.rename_failure = some e → f.write_failure = none → f.cleanup_failure = false →
      (dump_json_atomic fs path content pid f).1 path = fs path ∧
      (dump_json_atomic fs path content pid f).1 (tmp_name path pid) = none) := by
  have hne : path ≠ tmp_name path pid := (tmp_name_ne_path path pid).symm
  rcases hw : f.write_failure with - | ⟨w, e0⟩
  · rcases hr : f.rename_failure with - | e1
    · constructor
      · right
        simp only [dump_json_atomic, hw, hr]
        rw [cleanup_tmp_other _ _ _ _ hne, fsSet_other _ _ _ _ hne, fsSet_same]
      · intro e h1 _ _
        exact absurd h1 (by simp)
    · constructor
      · left
        simp only [dump_json_atomic, hw, hr]
        rw [cleanup_tmp_other _ _ _ _ hne, fsSet_other _ _ _ _ hne]
      · intro e _ _ hc
        simp only [dump_json_atomic, hw, hr]
        constructor
        · rw [cleanup_tmp_other _ _ _ _ hne, fsSet_other _ _ _ _ hne]
        · rw [hc]
          exact cleanup_tmp_removes _ _ (by rw [fsSet_same]; rfl)
  · constructor
    · left
      simp only [dump_json_atomic, hw]
      rw [cleanup_tmp_other _ _ _ _ hne, fsSet_other _ _ _ _ hne]
    · intro e _ h2 _
      exact absurd h2 (by simp)

/-- C7 (witness): a failed rename at a concrete call leaves `a.json` with
its old content and no temp file. -/
theorem C7_witness :
    afRenameFails.rename_failure = some "EPERM" ∧
    afRenameFails.write_failure = none ∧
    afRenameFails.cleanup_failure = false ∧
    (dump_json_atomic fsOld "a.json" "\x7b\x7d" 7 afRenameFails).1 "a.json" = some "old" ∧
    (dump_json_atomic fsOld "a.json" "\x7b\x7d" 7 afRenameFails).1
      (tmp_name "a.json" 7) = none := by
  have h := (C7_atomic_all_or_nothing fsOld "a.json" "\x7b\x7d" 7 afRenameFails).2
    "EPERM" rfl rfl rfl
  exact ⟨rfl, rfl, rfl, h.1, h.2⟩

/-- C10: if serialization or the file write raises midway (before the
rename), the original exception propagates (also when the cleanup itself
fails), the target path is untouched, and when the cleanup succeeds the
temp file has been removed. -/
theorem C10_write_failure_cleanup (fs : FS) (path content : String) (pid : Nat)
    (f : AtomicFailure) (w e : String) (hw : f.write_failure = some (w, e)) :
    (dump_json_atomic fs path content pid f).2 = some e ∧
    (dump_json_atomic fs path content pid f).1 path = fs path ∧
    (f.cleanup_failure = false →
      (dump_json_atomic fs path content pid f).1 (tmp_name path pid) = none) := by
  have hne : path ≠ tmp_name path pid := (tmp_name_ne_path path pid).symm
  simp only [dump_json_atomic, hw]
  refine ⟨by trivial, ?_, ?_⟩
  · rw [cleanup_tmp_other _ _ _ _ hne, fsSet_other _ _ _ _ hne]
  · intro hc
    rw [hc]
    exact cleanup_tmp_removes _ _ (by rw [fsSet_same]; rfl)

/-- C10 (witness): a concrete mid-write failure. -/
theorem C10_witness :
    afWriteFails.write_failure = some ("\x7b\"part", "SerializationError") ∧
    (dump_json_atomic fsOld "a.json" "\x7b\x7d" 7 afWriteFails).2 =
      some "SerializationError" ∧
    (dump_json_atomic fsOld "a.json" "\x7b\x7d" 7 afWriteFails).1 "a.json" = some "old" ∧
    (dump_json_atomic fsOld "a.json" "\x7b\x7d" 7 afWriteFails).1
      (tmp_name "a.json" 7) = none := by
  have h := C10_write_failure_cleanup fsOld "a.json" "\x7b\x7d" 7 afWriteFails
    "\x7b\"part" "SerializationError" rfl
  exact ⟨rfl, h.1, h.2.1, h.2.2 rfl⟩

/-! ### JSON roundtrip: whitespace and numeral lemmas -/

theorem skipWs_replicate_space (k : Nat) (cs : List Char) :
    skipWs (List.replicate k ' ' ++ cs) = skipWs cs := by
  induction k with
  | zero => rfl
  | succ n ih => simpa [skipWs, isWsChar] using ih

theorem skipWs_nlIndent (d : Nat) (cs : List Char) :
    skipWs (nlIndent d ++ cs) = skipWs cs := by
  simp only [nlIndent, List.cons_append, skipWs, isWsChar]
  simpa using skipWs_replicate_space (2 * d) cs

theorem skipWs_not_ws (c : Char) (cs : List Char) (h : isWsChar c = false) :
    skipWs (c :: cs) = c :: cs := by
  simp [skipWs, h]

theorem digitChar_spec (n : Nat) (h : n < 10) :
    (digitChar n).isDigit = true ∧ (digitChar n).toNat - 48 = n := by
  interval_cases n <;> exact ⟨by decide, by decide⟩

theorem natDigitsAux_append (fuel : Nat) :
    ∀ (n : Nat) (acc : List Char),
      natDigitsAux fuel n acc = natDigitsAux fuel n [] ++ acc := by
  induction fuel with
  | zero => intro n acc; simp [natDigitsAux]
  | succ f ih =>
    intro n acc
    by_cases h : n < 10
    · simp [natDigitsAux, h]
    · rw [natDigitsAux, if_neg h, natDigitsAux, if_neg h, ih (n / 10),
        ih (n / 10) [digitChar (n % 10)], List.append_assoc]
      rfl

theorem natDigitsAux_spec (fuel : Nat) :
    ∀ n : Nat, n < 10 ^ (fuel + 1) →
      natDigitsAux (fuel + 1) n [] ≠ [] ∧
      (∀ c ∈ natDigitsAux (fuel + 1) n [], c.isDigit = true) ∧
      digitsToNat (natDigitsAux (fuel + 1) n []) = n := by
  induction fuel with
  | zero =>
    intro n hn
    have h10 : n < 10 := by simpa using hn
    rw [natDigitsAux, if_pos h10]
    refine ⟨by simp, ?_, ?_⟩
    · intro c hc
      rw [List.mem_singleton] at hc
      subst hc
      exact (digitChar_spec n h10).1
    · simp [digitsToNat, (digitChar_spec n h10).2]
  | succ f ih =>
    intro n hn
    by_cases h10 : n < 10
    · rw [natDigitsAux, if_pos h10]
      refine ⟨by simp, ?_, ?_⟩
      · intro c hc
        rw [List.mem_singleton] at hc
        subst hc
        exact (digitChar_spec n h10).1
      · simp [digitsToNat, (digitChar_spec n h10).2]
    · have hdiv : n / 10 < 10 ^ (f + 1) := by
        rw [Nat.div_lt_iff_lt_mul (by norm_num)]
        calc n < 10 ^ (f + 1 + 1) := hn
        _ = 10 ^ (f + 1) * 10 := by ring
      obtain ⟨hne, hdig, hval⟩ := ih (n / 10) hdiv
      rw [natDigitsAux, if_neg h10, natDigitsAux_append]
      have hmod : n % 10 < 10 := Nat.mod_lt _ (by norm_num)
      refine ⟨by simp, ?_, ?_⟩
      · intro c hc
        rcases List.mem_append.mp hc with hc1 | hc2
        · exact hdig c hc1
        · rw [List.mem_singleton] at hc2
          subst hc2
          exact (digitChar_spec _ hmod).1
      · rw [digitsToNat, List.foldl_append]
        have : List.foldl (fun a c => 10 * a + (c.toNat - 48)) 0
            (natDigitsAux (f + 1) (n / 10) []) = n / 10 := hval
        rw [this]
        simp only [List.foldl_cons, List.foldl_nil]
        rw [(digitChar_spec _ hmod).2]
        omega

theorem natChars_spec (n : Nat) :
    natChars n ≠ [] ∧ (∀ c ∈ natChars n, c.isDigit = true) ∧
      digitsToNat (natChars n) = n := by
  have h : n < 10 ^ (n + 1) := by
    calc n < 10 ^ n := Nat.lt_pow_self (by norm_num) n
    _ ≤ 10 ^ (n + 1) := Nat.pow_le_pow_right (by norm_num) (by omega)
  exact natDigitsAux_spec n n h

theorem takeWhile_digits_append (xs rest : List Char)
    (hall : ∀ c ∈ xs, c.isDigit = true) (hb : numBoundary rest) :
    (xs ++ rest).takeWhile Char.isDigit = xs ∧
    (xs ++ rest).dropWhile Char.isDigit = rest := by
  induction xs with
  | nil =>
    rcases rest with - | ⟨r, rs⟩
    · exact ⟨rfl, rfl⟩
    · rw [numBoundary] at hb
      simp [List.takeWhile, List.dropWhile, hb]
  | cons x xs ih =>
    have hx : x.isDigit = true := hall x (by simp)
    obtain ⟨h1, h2⟩ := ih (fun c hc => hall c (by simp [hc]))
    simp [List.takeWhile, List.dropWhile, hx, h1, h2]

theorem parseNatNum_natChars (n : Nat) (rest : List Char) (hb : numBoundary rest) :
    parseNatNum (natChars n ++ rest) = some (n, rest) := by
  obtain ⟨hne, hdig, hval⟩ := natChars_spec n
  obtain ⟨h1, h2⟩ := takeWhile_digits_append (natChars n) rest hdig hb
  rw [parseNatNum]
  simp only [h1, h2]
  rw [if_neg (by simpa using hne), hval]

theorem parseNum_intChars (i : Int) (rest : List Char) (hb : numBoundary rest) :
    parseNum (intChars i ++ rest) = some (i, rest) := by
  by_cases hneg : i < 0
  · rw [intChars, if_pos hneg, List.cons_append, parseNum, if_pos rfl,
      parseNatNum_natChars _ _ hb]
    simp only [Option.map_some']
    have : (((-i).toNat : Int)) = -i := Int.toNat_of_nonneg (by omega)
    congr 1
    rw [Prod.mk.injEq]
    exact ⟨by omega, rfl⟩
  · obtain ⟨hne, hdig, -⟩ := natChars_spec i.toNat
    rcases hcons : natChars i.toNat with - | ⟨c, cs⟩
    · exact absurd hcons hne
    · have hc : c.isDigit = true := hdig c (by rw [hcons]; simp)
      have hcdash : ¬(c = '-') := by
        intro h; subst h; exact absurd hc (by decide)
      rw [intChars, if_neg hneg, hcons, List.cons_append, parseNum, if_neg hcdash,
        ← List.cons_append, ← hcons, parseNatNum_natChars _ _ hb]
      simp only [Option.map_some']
      congr 2
      omega

/-! ### JSON roundtrip: string bodies -/

theorem hexVal_hexDigitChar (m : Nat) (h : m < 16) : hexVal (hexDigitChar m) = some m := by
  interval_cases m <;> decide

theorem parseStrBody_escape : ∀ (l rest : List Char),
    parseStrBody (escapeList l ++ '"' :: rest) = some (l, rest) := by
  intro l
  induction l with
  | nil =>
    intro rest
    rw [escapeList, List.nil_append, parseStrBody.eq_def]
    simp +decide
  | cons c l ih =>
    intro rest
    rw [escapeList, List.append_assoc]
    by_cases h1 : c = '"'
    · subst h1
      rw [show escapeChar '"' = ['\\', '"'] from by decide]
      rw [List.cons_append, List.cons_append, parseStrBody.eq_def]
      simp +decide [consStr, ih rest]
    · by_cases h2 : c = '\\'
      · subst h2
        rw [show escapeChar '\\' = ['\\', '\\'] from by decide]
        rw [List.cons_append, List.cons_append, parseStrBody.eq_def]
        simp +decide [consStr, ih rest]
      · by_cases h3 : c = '\n'
        · subst h3
          rw [show escapeChar '\n' = ['\\', 'n'] from by decide]
          rw [List.cons_append, List.cons_append, parseStrBody.eq_def]
          simp +decide [consStr, ih rest]
        · by_cases h4 : c = '\r'
          · subst h4
            rw [show escapeChar '\r' = ['\\', 'r'] from by decide]
            rw [List.cons_append, List.cons_append, parseStrBody.eq_def]
            simp +decide [consStr, ih rest]
          · by_cases h5 : c = '\t'
            · subst h5
              rw [show escapeChar '\t' = ['\\', 't'] from by decide]
              rw [List.cons_append, List.cons_append, parseStrBody.eq_def]
              simp +decide [consStr, ih rest]
            · by_cases h6 : c.toNat = 8
              · have hc : c = Char.ofNat 8 := by rw [← h6, Char.ofNat_toNat]
                subst hc
                rw [show escapeChar (Char.ofNat 8) = ['\\', 'b'] from by decide]
                rw [List.cons_append, List.cons_append, parseStrBody.eq_def]
                simp +decide [consStr, ih rest]
              · by_cases h7 : c.toNat = 12
                · have hc : c = Char.ofNat 12 := by rw [← h7, Char.ofNat_toNat]
                  subst hc
                  rw [show escapeChar (Char.ofNat 12) = ['\\', 'f'] from by decide]
                  rw [List.cons_append, List.cons_append, parseStrBody.eq_def]
                  simp +decide [consStr, ih rest]
                · by_cases h8 : c.toNat < 32
                  · rw [show escapeChar c =
                        ['\\', 'u', '0', '0', hexDigitChar (c.toNat / 16),
                          hexDigitChar (c.toNat % 16)] from by
                      simp [escapeChar, h1, h2, h3, h4, h5, h6, h7, h8]]
                    have hdiv : c.toNat / 16 < 16 := by omega
                    have hmod : c.toNat % 16 < 16 := by omega
                    have h0 : hexVal '0' = some 0 := by decide
                    rw [List.cons_append, List.cons_append, List.cons_append,
                      List.cons_append, List.cons_append, List.cons_append,
                      parseStrBody.eq_def]
                    simp +decide only [h0, hexVal_hexDigitChar _ hdiv,
                      hexVal_hexDigitChar _ hmod, consStr, ih rest]
                    rw [show ((0 * 16 + 0) * 16 + c.toNat / 16) * 16 + c.toNat % 16
                        = c.toNat from by omega, Char.ofNat_toNat]
                    simp
                    exact ih rest
                  · rw [show escapeChar c = [c] from by
                      simp [escapeChar, h1, h2, h3, h4, h5, h6, h7, h8]]
                    rw [List.cons_append, List.nil_append, parseStrBody.eq_def]
                    simp only [if_neg h1, if_neg h2, consStr, ih rest]
                    simp

/-! ### JSON roundtrip: parser dispatch helpers -/

theorem skipWs_space (cs : List Char) : skipWs (' ' :: cs) = skipWs cs := by
  simp [skipWs, isWsChar]

theorem parseCore_pv_nlIndent (fuel d : Nat) (cs : List Char) :
    parseCore fuel .pv (nlIndent d ++ cs) = parseCore fuel .pv cs := by
  cases fuel with
  | zero => rfl
  | succ f => simp only [parseCore, skipWs_nlIndent]

theorem parseCore_pv_space (fuel : Nat) (cs : List Char) :
    parseCore fuel .pv (' ' :: cs) = parseCore fuel .pv cs := by
  cases fuel with
  | zero => rfl
  | succ f => simp only [parseCore, skipWs_space]

theorem digit_not_special (c : Char) (h : c.isDigit = true) :
    isWsChar c = false ∧ c ≠ 'n' ∧ c ≠ 't' ∧ c ≠ 'f' ∧ c ≠ '"' ∧ c ≠ '[' ∧
      c ≠ '\x7b' ∧ c ≠ ']' ∧ c ≠ '\x7d' := by
  constructor
  · cases hw : isWsChar c
    · rfl
    · exfalso
      simp [isWsChar] at hw
      rcases hw with ((rfl | rfl) | rfl) | rfl <;> exact absurd h (by decide)
  · refine ⟨?_, ?_, ?_, ?_, ?_, ?_, ?_, ?_⟩ <;>
      first
      | (intro hc; subst hc; exact absurd h (by decide))

/-- The first character written for any value begins a value: it is not
whitespace and closes no bracket. -/
theorem dumpVal_head (d : Nat) (v : J) :
    ∃ c t, dumpVal d v = c :: t ∧ isWsChar c = false ∧ c ≠ ']' ∧ c ≠ '\x7d' := by
  cases v with
  | null => exact ⟨'n', _, rfl, by decide, by decide, by decide⟩
  | bool b =>
    cases b
    · exact ⟨'f', _, rfl, by decide, by decide, by decide⟩
    · exact ⟨'t', _, rfl, by decide, by decide, by decide⟩
  | num n =>
    by_cases hneg : n < 0
    · exact ⟨'-', _, by rw [dumpVal, intChars, if_pos hneg], by decide, by decide, by decide⟩
    · obtain ⟨hne, hdig, -⟩ := natChars_spec n.toNat
      rcases hcons : natChars n.toNat with - | ⟨c, cs⟩
      · exact absurd hcons hne
      · have hc : c.isDigit = true := hdig c (by rw [hcons]; simp)
        obtain ⟨hw, -, -, -, -, -, -, hr1, hr2⟩ := digit_not_special c hc
        exact ⟨c, cs, by rw [dumpVal, intChars, if_neg hneg, hcons], hw, hr1, hr2⟩
  | str s => exact ⟨'"', _, rfl, by decide, by decide, by decide⟩
  | arr es =>
    cases es
    · exact ⟨'[', _, rfl, by decide, by decide, by decide⟩
    · exact ⟨'[', _, rfl, by decide, by decide, by decide⟩
  | obj ms =>
    cases ms
    · exact ⟨'\x7b', _, rfl, by decide, by decide, by decide⟩
    · exact ⟨'\x7b', _, rfl, by decide, by decide, by decide⟩

theorem numBoundary_arrSuffix (d dd : Nat) (t : JArr) (rest : List Char) :
    numBoundary (dumpArrRest d t ++ nlIndent dd ++ ']' :: rest) := by
  cases t with
  | nil => simp [dumpArrRest, nlIndent, numBoundary]
  | cons v t' => simp [dumpArrRest, nlIndent, numBoundary]

theorem numBoundary_objSuffix (d dd : Nat) (t : JObj) (rest : List Char) :
    numBoundary (dumpObjRest d t ++ nlIndent dd ++ '\x7d' :: rest) := by
  cases t with
  | nil => simp [dumpObjRest, nlIndent, numBoundary]
  | cons k v t' => simp [dumpObjRest, nlIndent, numBoundary]

theorem fuelV_pos (v : J) : 1 ≤ fuelV v := by
  cases v <;> simp [fuelV]

/-! ### JSON roundtrip: the printer output parses back -/

mutual

theorem parse_dumpVal (v : J) (d : Nat) (rest : List Char) (fuel : Nat)
    (hf : fuelV v ≤ fuel) (hb : numBoundary rest) :
    parseCore fuel .pv (dumpVal d v ++ rest) = some (.val v, rest) := by
  rcases fuel with - | f
  · have := fuelV_pos v; omega
  cases v with
  | null =>
    show parseCore (f + 1) .pv ('n' :: 'u' :: 'l' :: 'l' :: rest) = _
    simp +decide [parseCore, skipWs, isWsChar, dropToken]
  | bool b =>
    cases b
    · show parseCore (f + 1) .pv ('f' :: 'a' :: 'l' :: 's' :: 'e' :: rest) = _
      simp +decide [parseCore, skipWs, isWsChar, dropToken]
    · show parseCore (f + 1) .pv ('t' :: 'r' :: 'u' :: 'e' :: rest) = _
      simp +decide [parseCore, skipWs, isWsChar, dropToken]
  | num n =>
    rw [dumpVal]
    by_cases hneg : n < 0
    · rw [intChars, if_pos hneg, List.cons_append]
      simp only [parseCore]
      rw [skipWs_not_ws '-' _ (by decide)]
      simp +decide only [if_true, if_false]
      have hInt : intChars n = '-' :: natChars (-n).toNat := by rw [intChars, if_pos hneg]
      rw [← List.cons_append, ← hInt, parseNum_intChars n rest hb]
    · obtain ⟨hne, hdig, -⟩ := natChars_spec n.toNat
      rcases hcons : natChars n.toNat with - | ⟨c, cs⟩
      · exact absurd hcons hne
      · have hc : c.isDigit = true := hdig c (by rw [hcons]; simp)
        obtain ⟨hw, hn1, hn2, hn3, hn4, hn5, hn6, -, -⟩ := digit_not_special c hc
        rw [intChars, if_neg hneg, hcons, List.cons_append]
        simp only [parseCore]
        rw [skipWs_not_ws _ _ hw]
        simp only [if_neg hn1, if_neg hn2, if_neg hn3, if_neg hn4, if_neg hn5, if_neg hn6]
        rw [← List.cons_append, ← hcons]
        have hInt : intChars n = natChars n.toNat := by rw [intChars, if_neg hneg]
        rw [← hInt, parseNum_intChars n rest hb]
  | str s =>
    rw [dumpVal, List.cons_append, List.append_assoc, List.singleton_append]
    simp only [parseCore]
    rw [skipWs_not_ws '"' _ (by decide)]
    simp +decide only [if_true, if_false]
    rw [parseStrBody_escape]
  | arr es =>
    cases es with
    | nil =>
      show parseCore (f + 1) .pv ('[' :: ']' :: rest) = _
      simp +decide [parseCore, skipWs, isWsChar]
    | cons v1 t =>
      rw [dumpVal, List.cons_append]
      simp only [List.append_assoc, List.singleton_append]
      simp only [parseCore]
      rw [skipWs_not_ws '[' _ (by decide)]
      simp +decide only [if_true, if_false]
      rw [skipWs_nlIndent]
      obtain ⟨c2, t2, hhead, hws2, hne1, -⟩ := dumpVal_head (d + 1) v1
      rw [hhead, List.cons_append, skipWs_not_ws _ _ hws2]
      simp only [if_neg hne1]
      rw [← List.cons_append, ← hhead]
      have hfE : fuelE (.cons v1 t) ≤ f := by
        rw [fuelV] at hf; omega
      rw [parse_dumpElems v1 t (d + 1) (d + 1) d rest f hfE hb]
  | obj ms =>
    cases ms with
    | nil =>
      show parseCore (f + 1) .pv ('\x7b' :: '\x7d' :: rest) = _
      simp +decide [parseCore, skipWs, isWsChar]
    | cons k v1 t =>
      rw [show dumpVal d (.obj (.cons k v1 t)) =
          '\x7b' :: (nlIndent (d + 1) ++ dumpEntry (d + 1) k v1 ++
            dumpObjRest (d + 1) t ++ nlIndent d ++ ['\x7d']) from by
        rw [dumpVal, dumpEntry]]
      rw [List.cons_append]
      simp only [List.append_assoc, List.singleton_append]
      simp only [parseCore]
      rw [skipWs_not_ws '\x7b' _ (by decide)]
      simp +decide only [if_true, if_false]
      rw [skipWs_nlIndent, dumpEntry, List.cons_append,
        skipWs_not_ws '"' _ (by decide)]
      simp +decide only [if_true, if_false]
      rw [← List.cons_append, ← dumpEntry]
      have hfM : fuelM (.cons k v1 t) ≤ f := by
        rw [fuelV] at hf; omega
      rw [parse_dumpMembers k v1 t (d + 1) (d + 1) d rest f hfM hb]
termination_by sizeOf v

theorem parse_dumpElems (v : J) (t : JArr) (d dd1 dd2 : Nat) (rest : List Char)
    (fuel : Nat) (hf : fuelE (.cons v t) ≤ fuel) (hb : numBoundary rest) :
    parseCore fuel .pe
        (nlIndent dd1 ++ (dumpVal d v ++ (dumpArrRest d t ++ (nlIndent dd2 ++
          ']' :: rest)))) =
      some (.elems (.cons v t), rest) := by
  rcases fuel with - | f
  · rw [fuelE] at hf; omega
  simp only [parseCore]
  have hfV : fuelV v ≤ f := by rw [fuelE] at hf; omega
  rw [parseCore_pv_nlIndent,
    parse_dumpVal v d (dumpArrRest d t ++ (nlIndent dd2 ++ ']' :: rest)) f hfV
      (by simpa [List.append_assoc] using numBoundary_arrSuffix d dd2 t rest)]
  cases t with
  | nil =>
    rw [dumpArrRest, List.nil_append]
    simp +decide only [skipWs_nlIndent, skipWs_not_ws, if_true, if_false]
  | cons v2 t2 =>
    rw [dumpArrRest]
    simp +decide only [List.cons_append, List.append_assoc, skipWs_not_ws,
      if_true, if_false]
    have hfE2 : fuelE (.cons v2 t2) ≤ f := by
      rw [fuelE] at hf; omega
    rw [parse_dumpElems v2 t2 d d dd2 rest f hfE2 hb]
termination_by 1 + sizeOf v + sizeOf t

theorem parse_dumpMembers (k : String) (v : J) (t : JObj) (d dd1 dd2 : Nat)
    (rest : List Char) (fuel : Nat) (hf : fuelM (.cons k v t) ≤ fuel)
    (hb : numBoundary rest) :
    parseCore fuel .pm
        (nlIndent dd1 ++ (dumpEntry d k v ++ (dumpObjRest d t ++ (nlIndent dd2 ++
          '\x7d' :: rest)))) =
      some (.members (.cons k v t), rest) := by
  rcases fuel with - | f
  · rw [fuelM] at hf; omega
  simp only [parseCore]
  rw [show dumpEntry d k v = '"' :: (escapeList k.data ++ ['"', ':', ' '] ++ dumpVal d v)
      from rfl]
  rw [skipWs_nlIndent, List.cons_append, skipWs_not_ws '"' _ (by decide)]
  simp +decide only [if_true, if_false]
  simp only [List.append_assoc, List.cons_append, List.nil_append]
  rw [parseStrBody_escape]
  simp only []
  rw [skipWs_not_ws ':' _ (by decide)]
  simp +decide only [if_true, if_false]
  rw [parseCore_pv_space]
  have hfV : fuelV v ≤ f := by rw [fuelM] at hf; omega
  rw [parse_dumpVal v d (dumpObjRest d t ++ (nlIndent dd2 ++ '\x7d' :: rest)) f hfV
    (by simpa [List.append_assoc] using numBoundary_objSuffix d dd2 t rest)]
  cases t with
  | nil =>
    rw [dumpObjRest, List.nil_append]
    simp +decide only [skipWs_nlIndent, skipWs_not_ws, if_true, if_false]
  | cons k2 v2 t2 =>
    rw [dumpObjRest]
    simp +decide only [List.cons_append, List.append_assoc, skipWs_not_ws,
      if_true, if_false]
    have hfM2 : fuelM (.cons k2 v2 t2) ≤ f := by
      rw [fuelM] at hf; omega
    have hrec := parse_dumpMembers k2 v2 t2 d d dd2 rest f hfM2 hb
    rw [show dumpEntry d k2 v2 = '\"' :: (escapeList k2.data ++ ['\"', ':', ' '] ++ dumpVal d v2) from rfl] at hrec
    simp only [List.append_assoc, List.cons_append, List.nil_append] at hrec ⊢
    rw [hrec]
termination_by 1 + sizeOf v + sizeOf t

end

/-! ### JSON roundtrip: well-formed values are fixed by canonize -/

theorem charListLt_asymm : ∀ a b : List Char, charListLt a b = true → charListLt b a = false := by
  intro a
  induction a with
  | nil =>
    intro b h
    cases b with
    | nil => simp [charListLt] at h
    | cons b bs => simp [charListLt]
  | cons x xs ih =>
    intro b h
    cases b with
    | nil => simp [charListLt] at h
    | cons y ys =>
      rw [charListLt] at h ⊢
      by_cases hxy : x < y
      · rw [if_neg (lt_asymm hxy), if_pos hxy]
      · by_cases hyx : y < x
        · rw [if_neg hxy, if_pos hyx] at h
          exact absurd h (by simp)
        · rw [if_neg hxy, if_neg hyx] at h
          rw [if_neg hyx, if_neg hxy]
          exact ih ys h

theorem strLeB_of_strLtB (a b : String) (h : strLtB a b = true) : strLeB a b = true := by
  rw [strLeB, charListLt_asymm a.data b.data h]
  rfl

theorem objSort_eq_of_sorted (ms : JObj) (h : JObj.sortedKeys ms = true) :
    objSort ms = ms := by
  cases ms with
  | nil => rfl
  | cons k v t =>
    rw [JObj.sortedKeys.eq_def, Bool.and_eq_true] at h
    obtain ⟨h1, h2⟩ := h
    rw [objSort, objSort_eq_of_sorted t h2]
    cases t with
    | nil => rfl
    | cons k2 v2 t2 =>
      have hlt : strLtB k k2 = true := by simpa using h1
      rw [objInsert, if_pos (strLeB_of_strLtB k k2 hlt)]
termination_by sizeOf ms

mutual

theorem canonize_eq_of_wf (v : J) (h : J.wf v = true) : canonize v = v := by
  cases v with
  | null => rfl
  | bool b => rfl
  | num n => rfl
  | str s => rfl
  | arr es =>
    rw [J.wf] at h
    rw [canonize, canonizeArr_eq_of_wf es h]
  | obj ms =>
    rw [J.wf, Bool.and_eq_true] at h
    rw [canonize, canonizeObj_eq_of_wf ms h.2, objSort_eq_of_sorted ms h.1]
termination_by sizeOf v

theorem canonizeArr_eq_of_wf (es : JArr) (h : JArr.wf es = true) : canonizeArr es = es := by
  cases es with
  | nil => rfl
  | cons v t =>
    rw [JArr.wf, Bool.and_eq_true] at h
    rw [canonizeArr, canonize_eq_of_wf v h.1, canonizeArr_eq_of_wf t h.2]
termination_by sizeOf es

theorem canonizeObj_eq_of_wf (ms : JObj) (h : JObj.wf ms = true) : canonizeObj ms = ms := by
  cases ms with
  | nil => rfl
  | cons k v t =>
    rw [JObj.wf, Bool.and_eq_true] at h
    rw [canonizeObj, canonize_eq_of_wf v h.1, canonizeObj_eq_of_wf t h.2]
termination_by sizeOf ms

end

/-! ### JSON roundtrip: the parse fuel is covered by the text length -/

mutual

theorem fuelV_le_len (d : Nat) (v : J) : fuelV v ≤ (dumpVal d v).length := by
  cases v with
  | null => simp [fuelV, dumpVal, kwNull]
  | bool b => cases b <;> simp [fuelV, dumpVal, kwTrue, kwFalse]
  | num n =>
    rw [fuelV, dumpVal]
    rcases hcons : intChars n with - | ⟨c, cs⟩
    · exfalso
      rw [intChars] at hcons
      by_cases hneg : n < 0
      · rw [if_pos hneg] at hcons
        exact absurd hcons (by simp)
      · rw [if_neg hneg] at hcons
        exact absurd hcons (natChars_spec n.toNat).1
    · simp
  | str s => simp [fuelV, dumpVal]
  | arr es =>
    cases es with
    | nil => simp [fuelV, fuelE, dumpVal]
    | cons v1 t =>
      have h1 := fuelV_le_len (d + 1) v1
      have h2 := fuelE_le_len (d + 1) t
      rw [fuelV, fuelE, dumpVal]
      simp only [List.length_cons, List.length_append, nlIndent, List.length_replicate]
      omega
  | obj ms =>
    cases ms with
    | nil => simp [fuelV, fuelM, dumpVal]
    | cons k v1 t =>
      have h1 := fuelV_le_len (d + 1) v1
      have h2 := fuelM_le_len (d + 1) t
      rw [fuelV, fuelM, dumpVal]
      simp only [List.length_cons, List.length_append, nlIndent, List.length_replicate]
      omega
termination_by sizeOf v

theorem fuelE_le_len (d : Nat) (t : JArr) : fuelE t ≤ (dumpArrRest d t).length := by
  cases t with
  | nil => simp [fuelE, dumpArrRest]
  | cons v t2 =>
    have h1 := fuelV_le_len d v
    have h2 := fuelE_le_len d t2
    rw [fuelE, dumpArrRest]
    simp only [List.length_cons, List.length_append, nlIndent, List.length_replicate]
    omega
termination_by sizeOf t

theorem fuelM_le_len (d : Nat) (t : JObj) : fuelM t ≤ (dumpObjRest d t).length := by
  cases t with
  | nil => simp [fuelM, dumpObjRest]
  | cons k v t2 =>
    have h1 := fuelV_le_len d v
    have h2 := fuelM_le_len d t2
    rw [fuelM, dumpObjRest]
    simp only [List.length_cons, List.length_append, nlIndent, List.length_replicate]
    omega
termination_by sizeOf t

end

/-! ### JSON roundtrip: top level -/

theorem loads_dump_json_text (v : J) : loads (dump_json_text v) = some (canonize v) := by
  rw [dump_json_text, loads]
  show (match parseVal ((dumpVal 0 (canonize v) ++ ['\n']).length + 1)
      (dumpVal 0 (canonize v) ++ ['\n']) with
    | some (w, rest) => if (skipWs rest).isEmpty then some w else none
    | none => none) = some (canonize v)
  rw [parseVal]
  have hfuel : fuelV (canonize v) ≤ (dumpVal 0 (canonize v) ++ ['\n']).length + 1 := by
    have := fuelV_le_len 0 (canonize v)
    simp only [List.length_append]
    omega
  rw [parse_dumpVal (canonize v) 0 ['\n'] _ hfuel (by rw [numBoundary]; decide)]
  simp [skipWs, isWsChar]

/-- C8: writing a well-formed value with `dump_json` and reading the file
back with `load_json` returns the same value. -/
theorem C8_json_roundtrip (fs : FS) (path : String) (v : J) (h : J.wf v = true) :
    load_json (dump_json fs path v) path = some v := by
  rw [dump_json, load_json, fsSet_same]
  show loads (dump_json_text v) = some v
  rw [loads_dump_json_text, canonize_eq_of_wf v h]

/-- C8 (witness): the roundtrip at a concrete nested value. -/
theorem C8_witness :
    J.wf vRound = true ∧
    load_json (dump_json fsOld "out.json" vRound) "out.json" = some vRound :=
  ⟨by decide, C8_json_roundtrip fsOld "out.json" vRound (by decide)⟩

end Gallery
